import Mathlib

/-!
Verification of the `PreprocessRaw` feature-engineering pipeline.

A shallow embedding of `src/modeling/preprocess_raw.py` (pandas, Python 2).

A dataframe is modelled as a row count together with a list of named,
dtyped columns of cell values.  Pandas `NaN`/`None` cells are both
modelled by `Val.vNull`; Python floats are modelled by exact rationals.
Methods that can raise a Python exception (`KeyError` on a missing
column, `ZeroDivisionError` in `summary`) are embedded in
`Except String`; methods that cannot raise are plain functions.
-/

namespace MC

/-- A cell of the dataframe.  `vNull` models both pandas `NaN` and
Python `None`. -/
inductive Val where
  | vStr (s : String)
  | vInt (n : Int)
  | vFloat (q : ℚ)
  | vNull
deriving DecidableEq

/-- A pandas column dtype: `int64`, `float64`, `object` or `uint8`
(the dtype `pd.get_dummies` gives indicator columns). -/
inductive DType where
  | int
  | float
  | obj
  | uint8
deriving DecidableEq

/-- A named dataframe column. -/
structure Col where
  name : String
  dtype : DType
  vals : List Val
deriving DecidableEq

instance : Inhabited Col := ⟨⟨"", DType.obj, []⟩⟩

/-- A dataframe: the pandas row index is modelled by its length
`nRows`, so a dataframe with zero columns still remembers how many
rows it has (as `df[[]]` does in pandas). -/
structure Df where
  nRows : ℕ
  cols : List Col
deriving DecidableEq

deriving instance DecidableEq for Except

/-- The column labels, in order. -/
def Df.names (df : Df) : List String := df.cols.map (·.name)

/-- Well-formedness: every column has exactly `nRows` cells. -/
def Df.WF (df : Df) : Prop := ∀ c ∈ df.cols, c.vals.length = df.nRows

instance (df : Df) : Decidable df.WF := List.decidableBAll _ df.cols

/-- `col in df.columns`. -/
def hasCol (df : Df) (n : String) : Bool := df.cols.any (·.name == n)

/-- `df[n]`: the first column labelled `n` (pandas labels are unique in
practice; attribute access returns the first match). -/
def getCol? (df : Df) (n : String) : Option Col := df.cols.find? (·.name == n)

/-! ## Exact rational arithmetic

Python floats are modelled by `ℚ`.  The arithmetic is written out via
`Rat.divInt` so that concrete instances of every theorem can be checked
by `decide` (kernel-level evaluation; the library's `Rat.add`/`Rat.mul`
are `irreducible`).  `Rat.divInt` normalises, so these agree with the
field operations of `ℚ`. -/

/-- The rational `n`. -/
def qOfNat (n : ℕ) : ℚ := Rat.divInt (n : ℤ) 1

/-- The rational `n`. -/
def qOfInt (n : ℤ) : ℚ := Rat.divInt n 1

/-- Exact addition. -/
def qAdd (a b : ℚ) : ℚ := Rat.divInt (a.num * (b.den : ℤ) + b.num * (a.den : ℤ)) ((a.den : ℤ) * (b.den : ℤ))

/-- Exact multiplication. -/
def qMul (a b : ℚ) : ℚ := Rat.divInt (a.num * b.num) ((a.den : ℤ) * (b.den : ℤ))

/-- Exact negation. -/
def qNeg (a : ℚ) : ℚ := Rat.divInt (-a.num) (a.den : ℤ)

/-- Exact subtraction. -/
def qSub (a b : ℚ) : ℚ := qAdd a (qNeg b)

/-- Exact division (`0` on a zero divisor; every use below is guarded
so that a Python `ZeroDivisionError` is modelled explicitly instead). -/
def qDiv (a b : ℚ) : ℚ := Rat.divInt (a.num * (b.den : ℤ)) ((a.den : ℤ) * b.num)

/-- The sum of a list of rationals. -/
def qSum (l : List ℚ) : ℚ := l.foldl qAdd (qOfNat 0)

/-- The least element of a list of rationals, if any. -/
def qMin? (l : List ℚ) : Option ℚ :=
  l.foldl (fun acc x =>
    match acc with
    | none => some x
    | some m => some (if Rat.blt x m then x else m)) none

/-- The greatest element of a list of rationals, if any. -/
def qMax? (l : List ℚ) : Option ℚ :=
  l.foldl (fun acc x =>
    match acc with
    | none => some x
    | some m => some (if Rat.blt m x then x else m)) none

/-! ## Python string helpers -/

/-- Code-point comparison of char lists (Python string `<`). -/
def charsLe : List Char → List Char → Bool
  | [], _ => true
  | _ :: _, [] => false
  | a :: as, b :: bs =>
    if a.toNat < b.toNat then true
    else if a.toNat == b.toNat then charsLe as bs
    else false

/-- Python string `<=` (lexicographic by code point). -/
def strLe (a b : String) : Bool := charsLe a.toList b.toList

/-- `re.sub('\s+', '_', s)`: replace each maximal whitespace run by a
single underscore.  The flag records whether the previous character was
part of a whitespace run already replaced. -/
def collapseWsAux : Bool → List Char → List Char
  | _, [] => []
  | prevWs, c :: rest =>
    if c.isWhitespace then
      (if prevWs then [] else ['_']) ++ collapseWsAux true rest
    else
      c :: collapseWsAux false rest

/-- The value normalisation `convert_dummies` applies to every listed
column: lowercase, then `\s+` → `_`, then `/` → `_`. -/
def normStr (s : String) : String :=
  String.mk ((collapseWsAux false (s.toList.map Char.toLower)).map
    (fun c => if c == '/' then '_' else c))

/-- Normalisation acts only on strings (the Python lambda tests
`type(x) != str`, and `Series.replace(regex=True)` leaves non-strings
alone). -/
def normVal : Val → Val
  | .vStr s => .vStr (normStr s)
  | v => v

/-- `col.split('_', 1)[0]`: the part of the name before the first
underscore (the whole name when it has none). -/
def colStub (n : String) : String :=
  String.mk (n.toList.takeWhile (fun c => c != '_'))

/-! ## The static column lists of the class -/

/-- `PreprocessRaw.drop_cols`. -/
def drop_cols : List String :=
  ["id", "frn", "frn_number_from_the_previous_year", "application_number", "ben",
   "account_number", "service_provider_number", "establishing_fcc_form470",
   "user_entered_establishing_fcc_form470", "line_item",
   "award_date", "expiration_date", "contract_expiration_date", "service_start_date",
   "model", "contract_number", "restriction_citation", "other_manufacture",
   "download_speed", "download_speed_units", "upload_speed", "upload_speed_units",
   "burstable_speed", "burstable_speed_units", "purpose", "billed_entity_name",
   "type_of_product", "updated_at", "created_at", "extended_contract_expiration_date",
   "window_status"]

/-- `PreprocessRaw.yn_cols`. -/
def yn_cols : List String :=
  ["connection_supports_school_library_or_nif", "includes_voluntary_extensions",
   "basic_firewall_protection", "based_on_state_master_contract",
   "based_on_multiple_award_schedule", "pricing_confidentiality",
   "lease_or_non_purchase_agreement", "connected_directly_to_school_library_or_nif",
   "was_fcc_form470_posted", "frn_previous_year_exists"]

/-- `PreprocessRaw.cat_cols`. -/
def cat_cols : List String :=
  ["pricing_confidentiality_type", "fiber_type", "connection_used_by",
   "fiber_sub_type", "purpose", "unit", "function", "postal_cd",
   "billed_entity_type", "source_of_matching_funds", "contract_type"]

/-! ## Row deduplication (`remove_row_duplicates`) -/

/-- Keep the rows of `xs` whose mask bit is `true`. -/
def maskRows {α : Type} (keep : List Bool) (xs : List α) : List α :=
  ((keep.zip xs).filter (·.1)).map (·.2)

/-- The identifier values appearing on at least two rows.  `groupby`
drops null keys, so nulls are never reported as duplicated. -/
def dupIds (fvals : List Val) : List Val :=
  ((fvals.filter (fun v => v != Val.vNull)).dedup).filter
    (fun v => decide (2 ≤ fvals.count v))

/-- `remove_row_duplicates`: drop every row whose `frn_adjusted` value
occurs at least twice (the whole group).  Raises `KeyError` when the
identifier column is absent. -/
def remove_row_duplicates (df : Df) : Except String Df :=
  match getCol? df "frn_adjusted" with
  | none => .error "KeyError: frn_adjusted"
  | some fc =>
    let keep := fc.vals.map (fun v => !((dupIds fc.vals).contains v))
    .ok { nRows := keep.count true,
          cols := df.cols.map (fun c => { c with vals := maskRows keep c.vals }) }

/-! ## All-null column removal (`remove_column_nulls`) -/

/-- `df.dropna(axis=1, how='all')`: keep a column iff it has at least
one non-null cell (pandas drops a column with zero non-null cells,
which with zero rows means every column). -/
def remove_column_nulls (df : Df) : Df :=
  { df with cols := df.cols.filter (fun c => c.vals.any (fun v => v != Val.vNull)) }

/-! ## Duplicate-column removal (`duplicate_columns`,
`remove_column_duplicates`) -/

/-- Python `==` on cells as it behaves inside a dtype group: in a float
column nulls are `NaN` and `NaN == NaN` is `False`; in other columns
nulls are `None` and `None == None` is `True`. -/
def valEqAsDtype (t : DType) (a b : Val) : Bool :=
  if t == DType.float && (a == Val.vNull || b == Val.vNull) then false
  else a == b

/-- Python `==` on the value lists of two columns of dtype `t`. -/
def listEqAsDtype (t : DType) : List Val → List Val → Bool
  | [], [] => true
  | a :: as, b :: bs => valEqAsDtype t a b && listEqAsDtype t as bs
  | _, _ => false

/-- One dtype group of `duplicate_columns`: mark `ks[i]` whenever some
later `j > i` has an identical value list (the earlier column of the
pair is dropped, the later kept). -/
def dupScan (t : DType) : List Col → List String
  | [] => []
  | c :: rest =>
    (if rest.any (fun c2 => listEqAsDtype t c.vals c2.vals) then [c.name] else [])
      ++ dupScan t rest

/-- `duplicate_columns`: group the columns by dtype and scan each group
pairwise. -/
def duplicate_columns (df : Df) : List String :=
  ((df.cols.map (·.dtype)).dedup).flatMap
    (fun t => dupScan t (df.cols.filter (·.dtype == t)))

/-- `df.loc[:, ~df.columns.duplicated()]`: keep the first column of
each label. -/
def dedupByName : List Col → List String → List Col
  | [], _ => []
  | c :: rest, seen =>
    if seen.contains c.name then dedupByName rest seen
    else c :: dedupByName rest (c.name :: seen)

/-- `remove_column_duplicates`: drop the columns `duplicate_columns`
reports, then keep only the first column of each remaining label. -/
def remove_column_duplicates (df : Df) : Df :=
  let dups := duplicate_columns df
  { df with
    cols := dedupByName (df.cols.filter (fun c => !(dups.contains c.name))) [] }

/-! ## Zero-variance column removal (`remove_no_var`) -/

/-- `Series.nunique()`: the number of distinct non-null values. -/
def nuniq (vs : List Val) : ℕ := ((vs.filter (fun v => v != Val.vNull)).dedup).length

/-- `remove_no_var`: drop each column with exactly one distinct
non-null value. -/
def remove_no_var (df : Df) : Df :=
  { df with cols := df.cols.filter (fun c => nuniq c.vals != 1) }

/-! ## Domain-specific column drop (`remove_drops_raw`) -/

/-- One step of `remove_drops_raw`: `df.drop(n, axis=1)` guarded by a
presence test. -/
def dropColIfPresent (df : Df) (n : String) : Df :=
  if hasCol df n then { df with cols := df.cols.filter (fun c => c.name != n) }
  else df

/-- `remove_drops_raw`: drop every listed column that is present. -/
def remove_drops_raw (df : Df) : Df := drop_cols.foldl dropColIfPresent df

/-! ## Column rename (`rename_col`) -/

/-- `df.rename(columns={a: b})`: every column labelled `a` gets label
`b`; a missing label is silently ignored. -/
def rename_col (a b : String) (df : Df) : Df :=
  { df with cols := df.cols.map (fun c => if c.name == a then { c with name := b } else c) }

/-! ## Float coercion (`convert_floats`) -/

/-- Helper for `pyFloat?`: the digits of a decimal literal as a
natural number (`none` on a non-digit). -/
def digitsVal? (cs : List Char) : Option ℕ :=
  if cs.all Char.isDigit then
    some (cs.foldl (fun a c => a * 10 + (c.toNat - 48)) 0)
  else none

/-- Python `float(s)` on the common decimal forms: optional surrounding
whitespace, an optional sign, then digits with an optional fractional
part (at least one digit overall).  Exponent, `inf` and `nan` forms are
not modelled; no claim depends on them. -/
def pyFloat? (s : String) : Option ℚ :=
  let strip := fun (cs : List Char) =>
    ((cs.dropWhile Char.isWhitespace).reverse.dropWhile Char.isWhitespace).reverse
  let cs := strip s.toList
  let signed : List Char → Option ℚ := fun body =>
    match body.dropWhile Char.isDigit with
    | [] =>
      if body.isEmpty then none
      else (digitsVal? body).map qOfNat
    | '.' :: frac =>
      let ip := body.takeWhile Char.isDigit
      if (ip.isEmpty && frac.isEmpty) || !frac.all Char.isDigit then none
      else
        match digitsVal? ip, digitsVal? frac with
        | some i, some f => some (qAdd (qOfNat i) (qDiv (qOfNat f) (qOfNat (10 ^ frac.length))))
        | _, _ => none
    | _ => none
  match cs with
  | '+' :: rest => signed rest
  | '-' :: rest => (signed rest).map qNeg
  | rest => signed rest

/-- `astype(float)` on one cell: numbers convert, `None` becomes `NaN`,
a string must parse. -/
def valToFloat? : Val → Option Val
  | .vNull => some .vNull
  | .vInt n => some (.vFloat (qOfInt n))
  | .vFloat q => some (.vFloat q)
  | .vStr s => (pyFloat? s).map .vFloat

/-- `astype(float)` on a whole column: all cells must convert,
otherwise the attempt fails. -/
def colToFloat? (c : Col) : Option Col :=
  (c.vals.mapM valToFloat?).map (fun vs => { c with dtype := DType.float, vals := vs })

/-- `convert_floats(cat_cols)`: try to coerce every column not in the
exclusion list; a failing column is left untouched (the `except`
branch). -/
def convert_floats (cats : List String) (df : Df) : Df :=
  { df with cols :=
      df.cols.map (fun c => if cats.contains c.name then c else (colToFloat? c).getD c) }

/-- `convert_floats_raw`. -/
def convert_floats_raw (df : Df) : Df := convert_floats cat_cols df

/-! ## Yes/No coercion (`convert_yn`) -/

/-- The row mapping of `convert_yn`, in the source's test order:
`'Yes'`, `'No'`, `== 1`, `== 0`, else `None`.  Python `==` identifies
`1` with `1.0`. -/
def ynVal (v : Val) : Val :=
  if v == Val.vStr "Yes" then Val.vInt 1
  else if v == Val.vStr "No" then Val.vInt 0
  else if v == Val.vInt 1 || v == Val.vFloat 1 then Val.vInt 1
  else if v == Val.vInt 0 || v == Val.vFloat 0 then Val.vInt 0
  else Val.vNull

/-- Overwrite every column labelled `n` (as `df[n] = list` does). -/
def setColVals (df : Df) (n : String) (dt : DType) (vs : List Val) : Df :=
  { df with cols := df.cols.map (fun c => if c.name == n then ⟨c.name, dt, vs⟩ else c) }

/-- The state change of `convert_yn` when the column is present: the
built list holds ints and `None`s, so pandas stores it as `float64`
when any `None` occurs and as `int64` otherwise. -/
def convertYnCol (df : Df) (n : String) : Df :=
  match getCol? df n with
  | none => df
  | some c =>
    let nv := c.vals.map ynVal
    setColVals df n (if nv.contains Val.vNull then DType.float else DType.int) nv

/-- `convert_yn(col)`: iterating the rows of a missing column raises
`KeyError` — except on a zero-row frame, where the loop body never
runs and `df[col] = []` creates an empty object column. -/
def convert_yn (n : String) (df : Df) : Except String Df :=
  if hasCol df n then .ok (convertYnCol df n)
  else if df.nRows == 0 then .ok { df with cols := df.cols ++ [⟨n, DType.obj, []⟩] }
  else .error ("KeyError: " ++ n)

/-- `convert_yn_raw`: apply `convert_yn` to every listed column that is
present. -/
def convert_yn_raw (df : Df) : Df :=
  yn_cols.foldl (fun d n => if hasCol d n then convertYnCol d n else d) df

/-! ## Dummy encoding (`convert_dummies`) -/

/-- Normalise the values of every column labelled `n`
(`df[col] = df[col].map(...).replace(...)`). -/
def normalizeCol (df : Df) (n : String) : Df :=
  { df with cols :=
      df.cols.map (fun c => if c.name == n then { c with vals := c.vals.map normVal } else c) }

/-- `df.groupby(col).size().reset_index().shape[0]`: the number of
distinct non-null values of the column (`groupby` drops null keys). -/
def cardOf (df : Df) (n : String) : ℕ :=
  match getCol? df n with
  | none => 0
  | some c => nuniq c.vals

/-- The selection test of `convert_dummies`: cardinality at most
`max_categories`, or one of the two override names. -/
def dummySelTest (maxcat : ℕ) (df : Df) (n : String) : Bool :=
  decide (cardOf df n ≤ maxcat) || n == "postal_cd" || n == "connect_type"

/-- The per-column loop of `convert_dummies`: normalise each listed
column in place, then test its cardinality; collect the selected
columns in list order.  A listed column that is absent raises
`KeyError` (at `df[col].map`). -/
def dummyLoop (maxcat : ℕ) : List String → Df → Except String (Df × List String)
  | [], df => .ok (df, [])
  | n :: rest, df =>
    if hasCol df n then
      let df1 := normalizeCol df n
      match dummyLoop maxcat rest df1 with
      | .ok (dfr, l) => .ok (dfr, if dummySelTest maxcat df1 n then n :: l else l)
      | .error e => .error e
    else .error ("KeyError: " ++ n)

/-- The label pandas prints for a category level. -/
def valLabel : Val → String
  | .vStr s => s
  | .vInt n => toString n
  | .vFloat q => toString q
  | .vNull => "nan"

/-- The indicator columns `pd.get_dummies` derives from the column
labelled `n`: one `uint8` column per distinct non-null value, in sorted
label order, named `stub_value` with `stub` the part of the column name
before its first underscore. -/
def dummyBlock (df : Df) (n : String) : List Col :=
  match getCol? df n with
  | none => []
  | some c =>
    let cats := ((c.vals.filter (fun v => v != Val.vNull)).dedup).insertionSort
      (fun a b => strLe (valLabel a) (valLabel b) = true)
    cats.map (fun v =>
      ⟨colStub n ++ "_" ++ valLabel v, DType.uint8,
        c.vals.map (fun x => if x == v then Val.vInt 1 else Val.vInt 0)⟩)

/-- `pd.get_dummies(df, columns=dcols, prefix=...)`: the non-encoded
columns in their original order, then the indicator blocks in `dcols`
order.  Rows whose value is null get `0` in every indicator. -/
def getDummies (df : Df) (dcols : List String) : Df :=
  { df with cols :=
      df.cols.filter (fun c => !(dcols.contains c.name)) ++ dcols.flatMap (dummyBlock df) }

/-- `convert_dummies(cols)`. -/
def convert_dummies (maxcat : ℕ) (cols : List String) (df : Df) : Except String Df :=
  (dummyLoop maxcat cols df).map (fun p => getDummies p.1 p.2)

/-- The selected columns of `convert_dummies` (`dummy_cols` in the
source), empty when the loop raises. -/
def dummySelected (maxcat : ℕ) (cols : List String) (df : Df) : List String :=
  match dummyLoop maxcat cols df with
  | .ok p => p.2
  | .error _ => []

/-- The categorical class columns that are present and not Yes/No
columns (`cat_cols_no_bool` in `convert_dummies_raw`). -/
def catColsNoBool (df : Df) : List String :=
  cat_cols.filter (fun x => hasCol df x && !(yn_cols.contains x))

/-- `convert_dummies_raw`. -/
def convert_dummies_raw (maxcat : ℕ) (df : Df) : Except String Df :=
  convert_dummies maxcat (catColsNoBool df) df

/-! ## Summary statistics (`summary`) -/

/-- One row of the summary frame. -/
structure SRow where
  col : String
  datatype : DType
  smin : Val
  smax : Val
  meanOrMostCommon : Val
  numUniq : ℕ
  nullCount : ℕ
  nullPct : ℚ
deriving DecidableEq

/-- The numeric content of a cell, when it has one. -/
def optQ : Val → Option ℚ
  | .vInt n => some (qOfInt n)
  | .vFloat q => some q
  | _ => none

/-- The non-null numeric values of a column. -/
def qlist (vs : List Val) : List ℚ := vs.filterMap optQ

/-- Pandas `Series.min()`, which skips nulls and yields `NaN` on an
empty series. -/
def qMinVal (vs : List Val) : Val :=
  match qMin? (qlist vs) with
  | none => Val.vNull
  | some q => Val.vFloat q

/-- Pandas `Series.max()`. -/
def qMaxVal (vs : List Val) : Val :=
  match qMax? (qlist vs) with
  | none => Val.vNull
  | some q => Val.vFloat q

/-- Pandas `Series.mean()`: the mean of the non-null values, `NaN` when
there are none. -/
def qMeanVal (vs : List Val) : Val :=
  let qs := qlist vs
  if qs.length == 0 then Val.vNull else Val.vFloat (qDiv (qSum qs) (qOfNat qs.length))

/-- The most frequent non-null value (`Counter(...).most_common(1)`),
`vNull` when the column has none. -/
def mostCommonVal (vs : List Val) : Val :=
  let nn := vs.filter (fun v => v != Val.vNull)
  match (nn.dedup).insertionSort (fun a b => nn.count b ≤ nn.count a) with
  | [] => Val.vNull
  | v :: _ => v

/-- The summary row of one column.  Both the object and the numeric
branch end by dividing the null count by `len(df)`, so a zero-row
frame raises `ZeroDivisionError` at the first column. -/
def summaryRow (n : ℕ) (c : Col) : Except String SRow :=
  if n == 0 then .error "ZeroDivisionError" else
  if c.dtype == DType.obj then
    .ok ⟨c.name, c.dtype, Val.vStr "NA", Val.vStr "NA", mostCommonVal c.vals,
      nuniq c.vals, c.vals.count Val.vNull, qDiv (qOfNat (c.vals.count Val.vNull)) (qOfNat n)⟩
  else
    .ok ⟨c.name, c.dtype, qMinVal c.vals, qMaxVal c.vals, qMeanVal c.vals,
      nuniq c.vals, c.vals.count Val.vNull, qDiv (qOfNat (c.vals.count Val.vNull)) (qOfNat n)⟩

/-- The loop of `summary()`: one row per column, in column order,
stopping at the first raised exception. -/
def summaryList (n : ℕ) : List Col → Except String (List SRow)
  | [] => .ok []
  | c :: rest => do
    let r ← summaryRow n c
    let rs ← summaryList n rest
    return r :: rs

/-- `summary()`. -/
def summary (df : Df) : Except String (List SRow) :=
  summaryList df.nRows df.cols

/-! ## Mostly-null column removal (`remove_mostly_nulls`) -/

/-- `df[names]`: select the listed columns, in list order. -/
def selectColsByNames (df : Df) (ns : List String) : Df :=
  { df with cols := ns.filterMap (getCol? df) }

/-- `remove_mostly_nulls`: keep exactly the columns whose null
fraction is strictly below the threshold.  (The `sort_values` call in
the source discards its result, so the column order is unchanged.) -/
def remove_mostly_nulls (t : ℚ) (df : Df) : Except String Df :=
  (summary df).map (fun s1 =>
    selectColsByNames df ((s1.filter (fun r => decide (r.nullPct < t))).map (·.col)))

/-! ## Correlated-column pruning (`remove_correlated_raw`) -/

/-- `df.sort_index(ascending=False, axis=1)`: columns in descending
label order. -/
def sortColsDesc (df : Df) : Df :=
  { df with cols := df.cols.insertionSort (fun a b => strLe b.name a.name = true) }

/-- The rows where both columns are non-null (pandas `corr` uses
pairwise-complete observations). -/
def completePairs (xs ys : List Val) : List (ℚ × ℚ) :=
  (xs.zip ys).filterMap (fun p =>
    match optQ p.1, optQ p.2 with
    | some x, some y => some (x, y)
    | _, _ => none)

/-- `abs(corr_matrix.iloc[i, j]) >= t` for a threshold `t ≥ 0`: with
`r = sxy / sqrt(sxx * syy)` this is `sxy² ≥ t² · sxx · syy`; a constant
or empty column gives `NaN`, and a `NaN` comparison is `False`. -/
def corrGe (t : ℚ) (xs ys : List Val) : Bool :=
  let ps := completePairs xs ys
  if ps.length == 0 then false else
  let n := qOfNat ps.length
  let xm := qDiv (qSum (ps.map (·.1))) n
  let ym := qDiv (qSum (ps.map (·.2))) n
  let sxx := qSum (ps.map (fun p => qMul (qSub p.1 xm) (qSub p.1 xm)))
  let syy := qSum (ps.map (fun p => qMul (qSub p.2 ym) (qSub p.2 ym)))
  let sxy := qSum (ps.map (fun p => qMul (qSub p.1 xm) (qSub p.2 ym)))
  if sxx == qOfNat 0 || syy == qOfNat 0 then false
  else decide (qMul (qMul t t) (qMul sxx syy) ≤ qMul sxy sxy)

/-- The strictly-lower-triangle index pairs `(i, j)`, `j < i`, in the
source's iteration order. -/
def lowerPairs (k : ℕ) : List (ℕ × ℕ) :=
  (List.range k).flatMap (fun i => (List.range i).map (fun j => (i, j)))

/-- The column the source chooses to drop for the pair `(i, j)`:
`colname2` when `nnull_dict[colname1] > nnull_dict[colname2]`, else
`colname1` — which keeps the column with *more* nulls, despite the
source's comment. -/
def corrDropName (sub : List Col) (ij : ℕ × ℕ) : String :=
  if (sub.getD ij.2 default).vals.count Val.vNull
      < (sub.getD ij.1 default).vals.count Val.vNull
  then (sub.getD ij.2 default).name
  else (sub.getD ij.1 default).name

/-- One iteration of the pruning loop: when the pair `(i, j)` of the
float submatrix is correlated beyond the threshold, drop the chosen
column if still present. -/
def corrStep (t : ℚ) (sub : List Col) (acc : Df) (ij : ℕ × ℕ) : Df :=
  if corrGe t (sub.getD ij.1 default).vals (sub.getD ij.2 default).vals then
    if hasCol acc (corrDropName sub ij) then
      { acc with cols := acc.cols.filter (fun c => c.name != corrDropName sub ij) }
    else acc
  else acc

/-- `remove_correlated_raw`: sort the columns in descending label
order, restrict to `float64` columns, and walk the lower triangle of
their correlation matrix, dropping one column of each over-threshold
pair.  The correlation matrix and the null counts are computed once,
before any drop. -/
def remove_correlated_raw (t : ℚ) (df : Df) : Df :=
  let df1 := sortColsDesc df
  let sub := df1.cols.filter (·.dtype == DType.float)
  (lowerPairs sub.length).foldl (corrStep t sub) df1

/-! ## Orchestration (`applyall_raw`) -/

/-- `applyall_raw`: the full training-time chain, in source order. -/
def applyall_raw (maxcat : ℕ) (nullt corrt : ℚ) (df : Df) : Except String Df := do
  let d1 ← remove_row_duplicates df
  let d2 := remove_column_nulls d1
  let d3 := remove_column_duplicates d2
  let d4 := remove_no_var d3
  let d5 := remove_drops_raw d4
  let d6 := rename_col "purpose_adj" "purpose" d5
  let d7 := convert_floats_raw d6
  let d8 := convert_yn_raw d7
  let d9 ← convert_dummies_raw maxcat d8
  let d10 ← remove_mostly_nulls nullt d9
  return remove_correlated_raw corrt d10

/-- `applyall_predict`: the inference-time chain — no zero-variance,
mostly-null or correlation step. -/
def applyall_predict (maxcat : ℕ) (df : Df) : Except String Df := do
  let d1 ← remove_row_duplicates df
  let d2 := remove_column_nulls d1
  let d3 := remove_column_duplicates d2
  let d4 := remove_drops_raw d3
  let d5 := rename_col "purpose_adj" "purpose" d4
  let d6 := convert_floats_raw d5
  let d7 := convert_yn_raw d6
  convert_dummies_raw maxcat d7

/-! ## The transformation operations as one type -/

/-- The transformation methods of the pipeline object, with their
arguments. -/
inductive POp where
  | remove_row_duplicates
  | remove_column_nulls
  | remove_column_duplicates
  | remove_no_var
  | remove_drops_raw
  | rename_col (a b : String)
  | convert_floats (cats : List String)
  | convert_floats_raw
  | convert_yn (n : String)
  | convert_yn_raw
  | convert_dummies (cols : List String)
  | convert_dummies_raw
  | remove_mostly_nulls
  | remove_correlated_raw
deriving DecidableEq

/-- Whether the method's body ends in `return self`.  Every
transformation method does, except `remove_correlated_raw`, which
falls off its end and returns `None`. -/
def returns_self : POp → Bool
  | .remove_correlated_raw => false
  | _ => true

/-- The state change of one method call, under the configuration
`(maxcat, nullt, corrt)`. -/
def applyOp (maxcat : ℕ) (nullt corrt : ℚ) : POp → Df → Except String Df
  | .remove_row_duplicates => remove_row_duplicates
  | .remove_column_nulls => fun df => .ok (remove_column_nulls df)
  | .remove_column_duplicates => fun df => .ok (remove_column_duplicates df)
  | .remove_no_var => fun df => .ok (remove_no_var df)
  | .remove_drops_raw => fun df => .ok (remove_drops_raw df)
  | .rename_col a b => fun df => .ok (rename_col a b df)
  | .convert_floats cats => fun df => .ok (convert_floats cats df)
  | .convert_floats_raw => fun df => .ok (convert_floats_raw df)
  | .convert_yn n => convert_yn n
  | .convert_yn_raw => fun df => .ok (convert_yn_raw df)
  | .convert_dummies cols => convert_dummies maxcat cols
  | .convert_dummies_raw => convert_dummies_raw maxcat
  | .remove_mostly_nulls => remove_mostly_nulls nullt
  | .remove_correlated_raw => fun df => .ok (remove_correlated_raw corrt df)

/-- A chain of method calls, each acting on the previous output. -/
def applyChain (maxcat : ℕ) (nullt corrt : ℚ) (ops : List POp) (df : Df) :
    Except String Df :=
  ops.foldlM (fun d op => applyOp maxcat nullt corrt op d) df

/-- The op sequence of `applyall_raw`. -/
def rawOps : List POp :=
  [.remove_row_duplicates, .remove_column_nulls, .remove_column_duplicates,
   .remove_no_var, .remove_drops_raw, .rename_col "purpose_adj" "purpose",
   .convert_floats_raw, .convert_yn_raw, .convert_dummies_raw,
   .remove_mostly_nulls, .remove_correlated_raw]

/-- Whether an operation is the dummy-encoding one (the only kind
allowed to grow the column count). -/
def isDummyOp : POp → Bool
  | .convert_dummies _ => true
  | .convert_dummies_raw => true
  | _ => false

/-- The labels `convert_dummies` would leave behind (kept columns
followed by generated indicator names); `[]` when the loop raises. -/
def dummyResultNames (maxcat : ℕ) (cols : List String) (df : Df) : List String :=
  match dummyLoop maxcat cols df with
  | .error _ => []
  | .ok p => (getDummies p.1 p.2).names

/-- The per-operation proviso under which an operation keeps column
labels unique: `rename_col` must not move a present column onto
another present label, `convert_yn` must not be asked to create a
missing column on a zero-row frame, and the labels dummy-encoding
produces must be collision-free.  Every other operation needs no
proviso. -/
def opSafe (maxcat : ℕ) : POp → Df → Bool
  | .rename_col a b, df => a == b || !(hasCol df a) || !(hasCol df b)
  | .convert_yn c, df => hasCol df c || !(df.nRows == 0)
  | .convert_dummies cols, df => decide (dummyResultNames maxcat cols df).Nodup
  | .convert_dummies_raw, df => decide (dummyResultNames maxcat (catColsNoBool df) df).Nodup
  | _, _ => true

/-! ## General lemmas about the embedding -/

/-- `qOfNat` agrees with the numeral cast. -/
theorem qOfNat_cast (n : ℕ) : qOfNat n = (n : ℚ) := by
  simp [qOfNat, Rat.divInt_one]

/-- `qOfInt` agrees with the numeral cast. -/
theorem qOfInt_cast (m : ℤ) : qOfInt m = (m : ℚ) := Rat.divInt_one m

/-- `qOfInt` is injective. -/
theorem qOfInt_inj {m k : ℤ} (h : qOfInt m = qOfInt k) : m = k := by
  rw [qOfInt_cast, qOfInt_cast] at h
  exact_mod_cast h

/-- A positive `hasCol` test yields a witness column. -/
theorem getCol?_isSome_of_hasCol {df : Df} {n : String} (h : hasCol df n = true) :
    ∃ c, getCol? df n = some c := by
  rcases List.any_eq_true.mp h with ⟨c, hc, hp⟩
  cases hf : df.cols.find? (·.name == n) with
  | some c' => exact ⟨c', hf⟩
  | none =>
    have := List.find?_eq_none.mp hf c hc
    exact absurd hp this

/-- The found column indeed carries the looked-up name. -/
theorem getCol?_name {df : Df} {n : String} {c : Col} (h : getCol? df n = some c) :
    c.name = n := by
  have := List.find?_some h
  simpa using this

/-- The found column is a member. -/
theorem getCol?_mem {df : Df} {n : String} {c : Col} (h : getCol? df n = some c) :
    c ∈ df.cols := List.mem_of_find?_eq_some h

/-- `find?` by name commutes with a name-preserving column map. -/
theorem find?_name_map {n : String} (g : Col → Col) (hg : ∀ c, (g c).name = c.name)
    (L : List Col) :
    (L.map g).find? (·.name == n) = (L.find? (·.name == n)).map g := by
  induction L with
  | nil => rfl
  | cons c rest ih =>
    by_cases hc : c.name = n
    · simp [List.find?_cons, hg c, hc]
    · simp [List.find?_cons, hg c, hc, ih]

/-- With unique labels, looking a member column up by its own name
finds it. -/
theorem find?_name_of_mem {L : List Col} (hnd : (L.map (·.name)).Nodup) {c : Col}
    (hm : c ∈ L) : L.find? (·.name == c.name) = some c := by
  induction L with
  | nil => cases hm
  | cons a rest ih =>
    simp only [List.map_cons, List.nodup_cons] at hnd
    rcases List.mem_cons.mp hm with h | h
    · subst h; simp [List.find?_cons]
    · have hna : a.name ≠ c.name := by
        intro he
        exact hnd.1 (he ▸ List.mem_map_of_mem (·.name) h)
      simp [List.find?_cons, hna, ih hnd.2 h]

/-- Selecting a sublist of the columns by their names returns exactly
those columns (labels unique). -/
theorem filterMap_getCol?_of_mem {df : Df} (hnd : df.names.Nodup) {S : List Col}
    (hs : ∀ c ∈ S, c ∈ df.cols) :
    (S.map (·.name)).filterMap (fun n => getCol? df n) = S := by
  induction S with
  | nil => rfl
  | cons c rest ih =>
    simp only [List.map_cons, List.filterMap_cons]
    rw [show getCol? df c.name = some c from find?_name_of_mem hnd (hs c (List.mem_cons_self c rest))]
    rw [ih (fun x hx => hs x (List.mem_cons_of_mem c hx))]

/-! ## Lemmas about `convert_dummies`'s per-column loop -/

theorem getCol?_normalizeCol (df : Df) (n m : String) :
    getCol? (normalizeCol df n) m =
      (getCol? df m).map
        (fun c => if c.name == n then { c with vals := c.vals.map normVal } else c) := by
  unfold normalizeCol getCol?
  exact find?_name_map _ (fun c => by by_cases h : c.name = n <;> simp [h]) _

theorem getCol?_normalizeCol_ne (df : Df) {n m : String} (h : m ≠ n) :
    getCol? (normalizeCol df n) m = getCol? df m := by
  rw [getCol?_normalizeCol]
  cases hm : getCol? df m with
  | none => rfl
  | some c =>
    have := getCol?_name hm
    simp [Option.map, this, h]

theorem getCol?_normalizeCol_self (df : Df) (n : String) :
    getCol? (normalizeCol df n) n =
      (getCol? df n).map (fun c => ⟨c.name, c.dtype, c.vals.map normVal⟩) := by
  rw [getCol?_normalizeCol]
  cases hm : getCol? df n with
  | none => rfl
  | some c =>
    have := getCol?_name hm
    simp [Option.map, this]

theorem normalizeCol_names (df : Df) (n : String) :
    (normalizeCol df n).names = df.names := by
  unfold normalizeCol Df.names
  simp only [List.map_map]
  exact List.map_congr_left (fun c _ => by by_cases h : c.name = n <;> simp [h])

theorem hasCol_names (df : Df) (m : String) : hasCol df m = df.names.any (· == m) := by
  unfold hasCol Df.names
  induction df.cols with
  | nil => rfl
  | cons c rest ih => simp [List.any_cons, ih]

theorem hasCol_normalizeCol (df : Df) (n m : String) :
    hasCol (normalizeCol df n) m = hasCol df m := by
  rw [hasCol_names, hasCol_names, normalizeCol_names]

/-- Selection depends on the column only through its values. -/
theorem dummySelTest_congr {X Y : Df} {m : String} (maxcat : ℕ)
    (h : getCol? X m = getCol? Y m) :
    dummySelTest maxcat X m = dummySelTest maxcat Y m := by
  unfold dummySelTest cardOf
  rw [h]

/-- What the per-column loop of `convert_dummies` computes, for a
duplicate-free list of present columns: every listed column ends up
normalised exactly once, the others are untouched, and a listed column
is selected exactly when the cardinality test on its normalised values
passes. -/
theorem dummyLoop_spec (maxcat : ℕ) : ∀ (cols : List String) (df : Df),
    cols.Nodup → (∀ c ∈ cols, hasCol df c = true) →
    ∃ dfr sel, dummyLoop maxcat cols df = .ok (dfr, sel) ∧
      dfr.nRows = df.nRows ∧
      dfr.names = df.names ∧
      (∀ m, m ∉ cols → getCol? dfr m = getCol? df m) ∧
      (∀ m ∈ cols, getCol? dfr m =
        (getCol? df m).map (fun c => ⟨c.name, c.dtype, c.vals.map normVal⟩)) ∧
      (∀ m ∈ sel, m ∈ cols) ∧
      (∀ m ∈ cols, (m ∈ sel ↔ dummySelTest maxcat (normalizeCol df m) m = true)) := by
  intro cols
  induction cols with
  | nil =>
    intro df _ _
    exact ⟨df, [], rfl, rfl, rfl, fun m _ => rfl, fun m hm => absurd hm (by simp),
      fun m hm => absurd hm (by simp), fun m hm => absurd hm (by simp)⟩
  | cons c rest ih =>
    intro df hnd hpres
    have hndc := List.nodup_cons.mp hnd
    have hc : hasCol df c = true := hpres c (List.mem_cons_self c rest)
    have hpres1 : ∀ x ∈ rest, hasCol (normalizeCol df c) x = true := by
      intro x hx
      rw [hasCol_normalizeCol]
      exact hpres x (List.mem_cons_of_mem c hx)
    obtain ⟨dfr, sel, hloop, hrows, hnames, huntouched, hnorm, hselsub, hseliff⟩ :=
      ih (normalizeCol df c) hndc.2 hpres1
    refine ⟨dfr, if dummySelTest maxcat (normalizeCol df c) c then c :: sel else sel, ?_,
      by rw [hrows]; rfl, by rw [hnames, normalizeCol_names], ?_, ?_, ?_, ?_⟩
    · simp [dummyLoop, hc, hloop]
    · intro m hm
      have hmc : m ≠ c := fun he => hm (he ▸ List.mem_cons_self c rest)
      have hmr : m ∉ rest := fun hr => hm (List.mem_cons_of_mem c hr)
      rw [huntouched m hmr, getCol?_normalizeCol_ne df hmc]
    · intro m hm
      rcases List.mem_cons.mp hm with he | hr
      · subst he
        rw [huntouched m hndc.1, getCol?_normalizeCol_self]
      · have hmc : m ≠ c := fun he => hndc.1 (he ▸ hr)
        rw [hnorm m hr, getCol?_normalizeCol_ne df hmc]
    · intro m hm
      by_cases ht : dummySelTest maxcat (normalizeCol df c) c = true
      · rw [if_pos ht] at hm
        rcases List.mem_cons.mp hm with he | hr
        · exact he ▸ List.mem_cons_self c rest
        · exact List.mem_cons_of_mem c (hselsub m hr)
      · rw [if_neg ht] at hm
        exact List.mem_cons_of_mem c (hselsub m hm)
    · intro m hm
      rcases List.mem_cons.mp hm with he | hr
      · subst he
        by_cases ht : dummySelTest maxcat (normalizeCol df m) m = true
        · rw [if_pos ht]
          exact ⟨fun _ => ht, fun _ => List.mem_cons_self m sel⟩
        · rw [if_neg ht]
          exact ⟨fun hms => absurd (hndc.1 (hselsub m hms)) (fun h => h), fun hts => absurd hts ht⟩
      · have hmc : m ≠ c := fun he => hndc.1 (he ▸ hr)
        have hcongr : dummySelTest maxcat (normalizeCol (normalizeCol df c) m) m
            = dummySelTest maxcat (normalizeCol df m) m := by
          refine dummySelTest_congr maxcat ?_
          rw [getCol?_normalizeCol_self, getCol?_normalizeCol_self,
            getCol?_normalizeCol_ne df hmc]
        have hiff := hseliff m hr
        rw [hcongr] at hiff
        by_cases hth : dummySelTest maxcat (normalizeCol df c) c = true
        · rw [if_pos hth]
          constructor
          · intro hms
            rcases List.mem_cons.mp hms with he | h
            · exact absurd he hmc
            · exact hiff.mp h
          · intro ht
            exact List.mem_cons_of_mem c (hiff.mpr ht)
        · rw [if_neg hth]
          exact hiff


/-! ## C3 and C6: dummy encoding -/

theorem dummySelected_eq {maxcat : ℕ} {cols : List String} {df dfr : Df} {sel : List String}
    (h : dummyLoop maxcat cols df = .ok (dfr, sel)) :
    dummySelected maxcat cols df = sel := by
  unfold dummySelected
  rw [h]

theorem convert_dummies_ok {maxcat : ℕ} {cols : List String} {df dfr : Df} {sel : List String}
    (h : dummyLoop maxcat cols df = .ok (dfr, sel)) :
    convert_dummies maxcat cols df = .ok (getDummies dfr sel) := by
  unfold convert_dummies
  rw [h]
  rfl

/-- C3 amended: a listed categorical column that is *not* selected for
encoding is kept as a column (not expanded, not dropped), but its
values are not left as-is: they are normalised — strings lowercased
with whitespace runs and slashes replaced by underscores. -/
theorem C3_unselected_column_normalized (maxcat : ℕ) (cols : List String) (df : Df)
    (col : String) (co : Col)
    (hnd : df.names.Nodup) (hcnd : cols.Nodup) (hpres : ∀ c ∈ cols, hasCol df c = true)
    (hmem : col ∈ cols) (hco : getCol? df col = some co)
    (hnotsel : col ∉ dummySelected maxcat cols df) :
    ∃ dfr, convert_dummies maxcat cols df = .ok dfr ∧
      getCol? dfr col = some ⟨co.name, co.dtype, co.vals.map normVal⟩ := by
  obtain ⟨dfr0, sel, hloop, hrows, hnames, hun, hnorm, hsub, hiff⟩ :=
    dummyLoop_spec maxcat cols df hcnd hpres
  rw [dummySelected_eq hloop] at hnotsel
  refine ⟨getDummies dfr0 sel, convert_dummies_ok hloop, ?_⟩
  have hcol0 : getCol? dfr0 col = some ⟨co.name, co.dtype, co.vals.map normVal⟩ := by
    rw [hnorm col hmem, hco]
    rfl
  have hndr : dfr0.names.Nodup := hnames ▸ hnd
  have hnamec : co.name = col := getCol?_name hco
  subst hnamec
  have hcontf : sel.contains co.name = false := by
    cases hcc : sel.contains co.name with
    | true => exact absurd (List.elem_iff.mp hcc) hnotsel
    | false => rfl
  have hkeep : (⟨co.name, co.dtype, co.vals.map normVal⟩ : Col)
      ∈ dfr0.cols.filter (fun c => !(sel.contains c.name)) := by
    refine List.mem_filter.mpr ⟨getCol?_mem hcol0, ?_⟩
    simp only [hcontf]
    rfl
  show List.find? _ (dfr0.cols.filter _ ++ sel.flatMap (dummyBlock dfr0)) = _
  rw [List.find?_append]
  have hndk : ((dfr0.cols.filter (fun c => !(sel.contains c.name))).map (·.name)).Nodup :=
    List.Nodup.sublist (List.Sublist.map _ (List.filter_sublist _)) hndr
  have hfk := find?_name_of_mem hndk hkeep
  rw [hfk]
  rfl

/-- The lowercased, underscore-normalised column of the C3 example. -/
def c3df : Df := ⟨2, [⟨"tag", DType.obj, [Val.vStr "A B", Val.vStr "c"]⟩]⟩

/-- C3 counterexample: with `max_categories = 1`, the column `tag`
(cardinality 2, not an override name) is not selected, yet its values
after `convert_dummies` are `["a_b", "c"]`, not the original
`["A B", "c"]`: the unselected column is not left as-is. -/
theorem C3_counterexample :
    (convert_dummies 1 ["tag"] c3df).map (fun d => getCol? d "tag")
      = .ok (some ⟨"tag", DType.obj, [Val.vStr "a_b", Val.vStr "c"]⟩) ∧
    getCol? c3df "tag" = some ⟨"tag", DType.obj, [Val.vStr "A B", Val.vStr "c"]⟩ ∧
    "tag" ∉ dummySelected 1 ["tag"] c3df := by
  refine ⟨by decide, by decide, by decide⟩

/-- C3 witness: the amended theorem at the concrete example. -/
theorem C3_witness :
    c3df.names.Nodup ∧ (["tag"] : List String).Nodup ∧
    (∀ c ∈ (["tag"] : List String), hasCol c3df c = true) ∧
    "tag" ∈ (["tag"] : List String) ∧
    getCol? c3df "tag" = some ⟨"tag", DType.obj, [Val.vStr "A B", Val.vStr "c"]⟩ ∧
    "tag" ∉ dummySelected 1 ["tag"] c3df ∧
    (∃ dfr, convert_dummies 1 ["tag"] c3df = .ok dfr ∧
      getCol? dfr "tag" =
        some ⟨"tag", DType.obj, [Val.vStr "A B", Val.vStr "c"].map normVal⟩) :=
  ⟨by decide, by decide, by decide, by decide, by decide, by decide,
    C3_unselected_column_normalized 1 ["tag"] c3df "tag"
      ⟨"tag", DType.obj, [Val.vStr "A B", Val.vStr "c"]⟩
      (by decide) (by decide) (by decide) (by decide) (by decide) (by decide)⟩

/-- C6: a listed column is selected iff its (normalised) cardinality is
at most `max_categories` or it is `postal_cd`/`connect_type`; a
selected column with `N` distinct non-null values yields a block of
exactly `N` `uint8` indicator columns — one per value, named
`stub_label` with normalised labels, flagging the matching rows — that
lands in the output, while every output column still named after the
original is an indicator, the original column itself being removed. -/
theorem C6_dummy_encoding (maxcat : ℕ) (cols : List String) (df : Df)
    (col : String) (co : Col)
    (_hnd : df.names.Nodup) (hcnd : cols.Nodup) (hpres : ∀ c ∈ cols, hasCol df c = true)
    (hmem : col ∈ cols) (hco : getCol? df col = some co) :
    ∃ dfr, convert_dummies maxcat cols df = .ok dfr ∧
      ((col ∈ dummySelected maxcat cols df) ↔
        (nuniq (co.vals.map normVal) ≤ maxcat ∨ col = "postal_cd" ∨ col = "connect_type")) ∧
      (col ∈ dummySelected maxcat cols df →
        ∃ block : List Col, block.Sublist dfr.cols ∧
          block.length = nuniq (co.vals.map normVal) ∧
          (∀ c ∈ block, c.dtype = DType.uint8 ∧
            ∃ v ∈ co.vals.map normVal, v ≠ Val.vNull ∧
              c.name = colStub col ++ "_" ++ valLabel v ∧
              c.vals = (co.vals.map normVal).map
                (fun x => if x == v then Val.vInt 1 else Val.vInt 0)) ∧
          (∀ c ∈ dfr.cols, c.name = col → c.dtype = DType.uint8)) := by
  obtain ⟨dfr0, sel, hloop, hrows, hnames, hun, hnorm, hsub, hiff⟩ :=
    dummyLoop_spec maxcat cols df hcnd hpres
  have hcol0 : getCol? dfr0 col = some ⟨co.name, co.dtype, co.vals.map normVal⟩ := by
    rw [hnorm col hmem, hco]
    rfl
  have hcard : cardOf (normalizeCol df col) col = nuniq (co.vals.map normVal) := by
    unfold cardOf
    rw [getCol?_normalizeCol_self, hco]
    rfl
  have hiffc : col ∈ sel ↔
      (nuniq (co.vals.map normVal) ≤ maxcat ∨ col = "postal_cd" ∨ col = "connect_type") := by
    rw [hiff col hmem]
    unfold dummySelTest
    rw [hcard]
    simp [Bool.or_eq_true, or_assoc]
  refine ⟨getDummies dfr0 sel, convert_dummies_ok hloop,
    by rw [dummySelected_eq hloop]; exact hiffc, ?_⟩
  rw [dummySelected_eq hloop]
  intro hsel
  refine ⟨dummyBlock dfr0 col, ?_, ?_, ?_, ?_⟩
  · show (dummyBlock dfr0 col).Sublist
        (dfr0.cols.filter (fun c => !(sel.contains c.name)) ++ sel.flatMap (dummyBlock dfr0))
    obtain ⟨s, t, hst⟩ := List.append_of_mem hsel
    have h1 : (dummyBlock dfr0 col).Sublist (sel.flatMap (dummyBlock dfr0)) := by
      rw [hst, List.flatMap_append, List.flatMap_cons]
      exact List.Sublist.trans
        (List.sublist_append_left (dummyBlock dfr0 col) (t.flatMap (dummyBlock dfr0)))
        (List.sublist_append_right (s.flatMap (dummyBlock dfr0)) _)
    exact List.Sublist.trans h1
      (List.sublist_append_right (dfr0.cols.filter (fun c => !(sel.contains c.name))) _)
  · unfold dummyBlock
    rw [hcol0]
    simp only [List.length_map, List.length_insertionSort]
    rfl
  · intro c hc
    unfold dummyBlock at hc
    rw [hcol0] at hc
    obtain ⟨v, hv, hmk⟩ := List.mem_map.mp hc
    have hvmem : v ∈ ((co.vals.map normVal).filter (fun x => x != Val.vNull)).dedup :=
      (List.mem_insertionSort _).mp hv
    have hvf := List.mem_filter.mp (List.mem_dedup.mp hvmem)
    refine ⟨by rw [← hmk], v, hvf.1, by simpa using hvf.2, by rw [← hmk], by rw [← hmk]⟩
  · intro c hc hcname
    have hc2 : c ∈ dfr0.cols.filter (fun c => !(sel.contains c.name))
        ++ sel.flatMap (dummyBlock dfr0) := hc
    rcases List.mem_append.mp hc2 with hk | hb
    · exfalso
      have hf := List.mem_filter.mp hk
      have : sel.contains c.name = true := List.elem_iff.mpr (hcname ▸ hsel)
      rw [this] at hf
      exact absurd hf.2 (by decide)
    · obtain ⟨x, _, hcx⟩ := List.mem_flatMap.mp hb
      unfold dummyBlock at hcx
      cases hgx : getCol? dfr0 x with
      | none => rw [hgx] at hcx; cases hcx
      | some cx =>
        rw [hgx] at hcx
        obtain ⟨v, _, hmk⟩ := List.mem_map.mp hcx
        rw [← hmk]

/-- A categorical column with two distinct values. -/
def c6df : Df :=
  ⟨3, [⟨"fiber_type", DType.obj, [Val.vStr "Single", Val.vStr "Single", Val.vStr "Multi"]⟩]⟩

/-- The column of `c6df`. -/
def c6co : Col :=
  ⟨"fiber_type", DType.obj, [Val.vStr "Single", Val.vStr "Single", Val.vStr "Multi"]⟩

/-- C6 witness: the theorem at a concrete dummy-encoded column. -/
theorem C6_witness :
    c6df.names.Nodup ∧ (["fiber_type"] : List String).Nodup ∧
    (∀ c ∈ (["fiber_type"] : List String), hasCol c6df c = true) ∧
    "fiber_type" ∈ (["fiber_type"] : List String) ∧
    getCol? c6df "fiber_type" = some c6co ∧
    (∃ dfr, convert_dummies 12 ["fiber_type"] c6df = .ok dfr ∧
      (("fiber_type" ∈ dummySelected 12 ["fiber_type"] c6df) ↔
        (nuniq (c6co.vals.map normVal) ≤ 12 ∨ "fiber_type" = "postal_cd" ∨
          "fiber_type" = "connect_type")) ∧
      ("fiber_type" ∈ dummySelected 12 ["fiber_type"] c6df →
        ∃ block : List Col, block.Sublist dfr.cols ∧
          block.length = nuniq (c6co.vals.map normVal) ∧
          (∀ c ∈ block, c.dtype = DType.uint8 ∧
            ∃ v ∈ c6co.vals.map normVal, v ≠ Val.vNull ∧
              c.name = colStub "fiber_type" ++ "_" ++ valLabel v ∧
              c.vals = (c6co.vals.map normVal).map
                (fun x => if x == v then Val.vInt 1 else Val.vInt 0)) ∧
          (∀ c ∈ dfr.cols, c.name = "fiber_type" → c.dtype = DType.uint8))) :=
  ⟨by decide, by decide, by decide, by decide, by decide,
    C6_dummy_encoding 12 ["fiber_type"] c6df "fiber_type" c6co
      (by decide) (by decide) (by decide) (by decide) (by decide)⟩

/-! ## C1: which column of a correlated pair is dropped -/

/-- Two perfectly correlated float columns: `a` is complete, `b` has
one missing value. -/
def c1df : Df :=
  ⟨4, [⟨"a", DType.float, [.vFloat (qOfNat 2), .vFloat (qOfNat 4), .vFloat (qOfNat 6), .vFloat (qOfNat 8)]⟩,
       ⟨"b", DType.float, [.vFloat (qOfNat 1), .vFloat (qOfNat 2), .vFloat (qOfNat 3), .vNull]⟩]⟩

/-- C1: on a pair with correlation `1 ≥ corr_threshold` where `b` has
strictly more missing values than `a`, `remove_correlated_raw` keeps
`b` and drops the complete column `a` — the opposite of the claimed
(and comment-documented) policy of dropping the column with the
greater missing count. -/
theorem C1_drops_the_less_null_column :
    (getCol? c1df "a").map (fun c => c.vals.count Val.vNull) = some 0 ∧
    (getCol? c1df "b").map (fun c => c.vals.count Val.vNull) = some 1 ∧
    corrGe (mkRat 9 10)
      [.vFloat (qOfNat 2), .vFloat (qOfNat 4), .vFloat (qOfNat 6), .vFloat (qOfNat 8)]
      [.vFloat (qOfNat 1), .vFloat (qOfNat 2), .vFloat (qOfNat 3), .vNull] = true ∧
    (remove_correlated_raw (mkRat 9 10) c1df).names = ["b"] := by decide

/-! ## C2: the end-to-end example -/

/-- The example dataset of the spec's testable-properties section. -/
def c2df : Df :=
  ⟨3, [⟨"frn_adjusted", DType.int, [.vInt 1, .vInt 1, .vInt 2]⟩,
       ⟨"basic_firewall_protection", DType.obj, [.vStr "Yes", .vStr "No", .vStr "Yes"]⟩,
       ⟨"fiber_type", DType.obj, [.vStr "Single", .vStr "Single", .vStr "Multi"]⟩,
       ⟨"cost", DType.float, [.vFloat (qOfNat 100), .vFloat (qOfNat 100), .vFloat (qOfNat 200)]⟩]⟩

/-- C2 counterexample: the full training pipeline on the example
dataset produces a frame containing none of the claimed columns
(`basic_firewall_protection`, `fiber_multi`, `cost`). -/
theorem C2_counterexample :
    (applyall_raw 12 (mkRat 74 100) (mkRat 9 10) c2df).map
      (fun d => hasCol d "cost" || hasCol d "fiber_multi" || hasCol d "basic_firewall_protection")
      = .ok false := by
  set_option maxRecDepth 100000 in decide

/-- C2 amended: the duplicated `frn_adjusted = 1` rows are removed,
after which a single row remains, so `remove_no_var` sees every column
as constant and drops them all: the pipeline returns a frame with one
row and no columns. -/
theorem C2_pipeline_drops_all_columns :
    remove_row_duplicates c2df =
      .ok ⟨1, [⟨"frn_adjusted", DType.int, [.vInt 2]⟩,
               ⟨"basic_firewall_protection", DType.obj, [.vStr "Yes"]⟩,
               ⟨"fiber_type", DType.obj, [.vStr "Multi"]⟩,
               ⟨"cost", DType.float, [.vFloat (qOfNat 200)]⟩]⟩ ∧
    applyall_raw 12 (mkRat 74 100) (mkRat 9 10) c2df = .ok ⟨1, []⟩ := by
  refine ⟨by decide, by set_option maxRecDepth 100000 in decide⟩

/-! ## C4: which operations return the pipeline object -/

/-- C4 counterexample: `remove_correlated_raw` does not end in
`return self`; it returns `None`. -/
theorem C4_counterexample : returns_self POp.remove_correlated_raw = false := rfl

/-- C4 amended: every transformation operation except
`remove_correlated_raw` returns the pipeline object, and chaining two
consecutive operations is the sequential composition of their state
changes: the second acts on the first's output state. -/
theorem C4_returns_self_except_remove_correlated :
    (∀ op : POp, returns_self op = true ↔ op ≠ POp.remove_correlated_raw) ∧
    (∀ maxcat nullt corrt (op1 op2 : POp) (df : Df),
      applyChain maxcat nullt corrt [op1, op2] df =
        (applyOp maxcat nullt corrt op1 df).bind (applyOp maxcat nullt corrt op2)) := by
  refine ⟨fun op => by cases op <;> simp [returns_self], ?_⟩
  intro maxcat nullt corrt op1 op2 df
  show (applyOp maxcat nullt corrt op1 df).bind _ = _
  cases applyOp maxcat nullt corrt op1 df with
  | error e => rfl
  | ok d1 =>
    show (applyOp maxcat nullt corrt op2 d1).bind _ = applyOp maxcat nullt corrt op2 d1
    cases applyOp maxcat nullt corrt op2 d1 with
    | error e => rfl
    | ok d2 => rfl

/-! ## C10: `summary` on a zero-row frame -/

/-- C10 amended: on a zero-row frame with at least one column, both
branches of `summary` divide the null count by `len(df) = 0`, raising
`ZeroDivisionError`, and `remove_mostly_nulls` propagates it. -/
theorem C10_summary_division_by_zero (t : ℚ) (df : Df)
    (h0 : df.nRows = 0) (hc : df.cols ≠ []) :
    summary df = .error "ZeroDivisionError" ∧
    remove_mostly_nulls t df = .error "ZeroDivisionError" := by
  obtain ⟨c, rest, hcr⟩ : ∃ c rest, df.cols = c :: rest := by
    cases hcols : df.cols with
    | nil => exact absurd hcols hc
    | cons c rest => exact ⟨c, rest, rfl⟩
  have hs : summary df = .error "ZeroDivisionError" := by
    simp [summary, hcr, summaryList, summaryRow, h0, bind, Except.bind]
  exact ⟨hs, by simp [remove_mostly_nulls, hs, Except.map]⟩

/-- C10 counterexample: a zero-row frame with zero columns makes
`summary` (and `remove_mostly_nulls`) complete without error, so
"every dataset with zero rows fails" is too strong. -/
theorem C10_counterexample :
    summary ⟨0, []⟩ = .ok [] ∧
    remove_mostly_nulls (mkRat 74 100) ⟨0, []⟩ = .ok ⟨0, []⟩ := by decide

/-- C10 witness: the amended theorem applied to a one-column zero-row
frame. -/
theorem C10_witness :
    summary ⟨0, [⟨"a", DType.obj, []⟩]⟩ = .error "ZeroDivisionError" ∧
    remove_mostly_nulls (mkRat 74 100) ⟨0, [⟨"a", DType.obj, []⟩]⟩ = .error "ZeroDivisionError" :=
  C10_summary_division_by_zero (mkRat 74 100) ⟨0, [⟨"a", DType.obj, []⟩]⟩ rfl (by decide)

/-! ## C8: the Yes/No coercion is total -/

/-- The Yes/No row mapping as the spec states it: `"Yes" → 1`,
`"No" → 0`, a cell whose numeric value is `1` → `1`, a cell whose
numeric value is `0` → `0`, anything else (including missing) →
missing.  Stated independently of `ynVal` for comparison. -/
def ynSpecVal (v : Val) : Val :=
  if v = Val.vStr "Yes" then Val.vInt 1
  else if v = Val.vStr "No" then Val.vInt 0
  else
    match optQ v with
    | some q =>
      if q = qOfNat 1 then Val.vInt 1 else if q = qOfNat 0 then Val.vInt 0 else Val.vNull
    | none => Val.vNull

/-- The source's `if/elif` chain computes exactly the spec's mapping. -/
theorem ynVal_eq_spec (v : Val) : ynVal v = ynSpecVal v := by
  cases v with
  | vStr s =>
    by_cases hy : s = "Yes"
    · simp [ynVal, ynSpecVal, hy]
    · by_cases hn : s = "No" <;> simp [ynVal, ynSpecVal, hy, hn, optQ]
  | vInt m =>
    by_cases hm1 : m = 1
    · simp [ynVal, ynSpecVal, hm1, optQ, qOfInt_cast, qOfNat_cast]
    · by_cases hm0 : m = 0 <;>
        simp [ynVal, ynSpecVal, hm1, hm0, optQ, qOfInt_cast, qOfNat_cast]
  | vFloat q =>
    by_cases hq1 : q = 1
    · simp [ynVal, ynSpecVal, hq1, optQ, qOfNat_cast]
    · by_cases hq0 : q = 0 <;> simp [ynVal, ynSpecVal, hq1, hq0, optQ, qOfNat_cast]
  | vNull => rfl

/-- C8: with the column present, `convert_yn` returns normally and
every row of the column is mapped exactly as the spec's table says —
no value raises. -/
theorem C8_convert_yn_total (df : Df) (n : String) (h : hasCol df n = true) :
    ∃ dfr co co', convert_yn n df = .ok dfr ∧ getCol? df n = some co ∧
      getCol? dfr n = some co' ∧ co'.vals = co.vals.map ynSpecVal := by
  obtain ⟨co, hco⟩ := getCol?_isSome_of_hasCol h
  have hname : co.name = n := getCol?_name hco
  refine ⟨convertYnCol df n, co,
    ⟨co.name, if (co.vals.map ynVal).contains Val.vNull then DType.float else DType.int,
      co.vals.map ynVal⟩, by simp [convert_yn, h], hco, ?_, ?_⟩
  · unfold convertYnCol
    rw [hco]
    show (setColVals df n _ _).cols.find? _ = _
    unfold setColVals
    simp only
    rw [find?_name_map (fun c => if c.name == n then ⟨c.name, _, _⟩ else c)
      (fun c => by by_cases hc : c.name = n <;> simp [hc])]
    show (getCol? df n).map _ = _
    rw [hco]
    simp [hname]
  · simp only
    exact List.map_congr_left (fun v _ => ynVal_eq_spec v)

/-- A Yes/No column holding a recognised string, garbage and a missing
value. -/
def c8df : Df := ⟨3, [⟨"fw", DType.obj, [.vStr "Yes", .vStr "garbage", .vNull]⟩]⟩

/-- C8 witness: the theorem at a concrete column. -/
theorem C8_witness :
    hasCol c8df "fw" = true ∧
    (∃ dfr co co', convert_yn "fw" c8df = .ok dfr ∧ getCol? c8df "fw" = some co ∧
      getCol? dfr "fw" = some co' ∧ co'.vals = co.vals.map ynSpecVal) :=
  ⟨by decide, C8_convert_yn_total c8df "fw" (by decide)⟩

/-! ## C7: the null-fraction threshold is exclusive -/

/-- The summary row of a column when no exception is raised. -/
def srowOk (n : ℕ) (c : Col) : SRow :=
  if c.dtype == DType.obj then
    ⟨c.name, c.dtype, Val.vStr "NA", Val.vStr "NA", mostCommonVal c.vals,
      nuniq c.vals, c.vals.count Val.vNull, qDiv (qOfNat (c.vals.count Val.vNull)) (qOfNat n)⟩
  else
    ⟨c.name, c.dtype, qMinVal c.vals, qMaxVal c.vals, qMeanVal c.vals,
      nuniq c.vals, c.vals.count Val.vNull, qDiv (qOfNat (c.vals.count Val.vNull)) (qOfNat n)⟩

theorem summaryRow_ok {n : ℕ} (hn : n ≠ 0) (c : Col) :
    summaryRow n c = .ok (srowOk n c) := by
  by_cases hd : c.dtype == DType.obj <;> simp [summaryRow, srowOk, hn, hd]

theorem summaryList_ok {n : ℕ} (hn : n ≠ 0) (L : List Col) :
    summaryList n L = .ok (L.map (srowOk n)) := by
  induction L with
  | nil => rfl
  | cons c rest ih =>
    simp [summaryList, summaryRow_ok hn, ih, bind, Except.bind, pure, Except.pure]

theorem srowOk_col (n : ℕ) (c : Col) : (srowOk n c).col = c.name := by
  unfold srowOk; split <;> rfl

theorem srowOk_nullPct (n : ℕ) (c : Col) :
    (srowOk n c).nullPct = qDiv (qOfNat (c.vals.count Val.vNull)) (qOfNat n) := by
  unfold srowOk; split <;> rfl

/-- C7: with at least one row and unique labels,
`remove_mostly_nulls` keeps exactly the columns whose null fraction is
strictly below the threshold — a column exactly at the threshold is
dropped, any column below it is retained, in original order. -/
theorem C7_null_threshold (t : ℚ) (df : Df) (h0 : df.nRows ≠ 0)
    (hnd : df.names.Nodup) :
    remove_mostly_nulls t df =
      .ok { df with cols :=
        df.cols.filter (fun c => decide (qDiv (qOfNat (c.vals.count Val.vNull)) (qOfNat df.nRows) < t)) } := by
  unfold remove_mostly_nulls
  rw [show summary df = .ok (df.cols.map (srowOk df.nRows)) from summaryList_ok h0 df.cols]
  show Except.ok (selectColsByNames df _) = _
  congr 1
  unfold selectColsByNames
  congr 1
  rw [List.filter_map, List.map_map]
  have hcomp1 : ((fun r : SRow => decide (r.nullPct < t)) ∘ srowOk df.nRows)
      = (fun c => decide (qDiv (qOfNat (c.vals.count Val.vNull)) (qOfNat df.nRows) < t)) :=
    funext fun c => by simp [Function.comp, srowOk_nullPct]
  have hcomp2 : ((fun r : SRow => r.col) ∘ srowOk df.nRows) = (fun c : Col => c.name) :=
    funext fun c => by simp [Function.comp, srowOk_col]
  rw [hcomp1, hcomp2]
  exact filterMap_getCol?_of_mem hnd (fun c hc => (List.mem_filter.mp hc).1)

/-- One column with null fraction exactly `3/4`, one with `2/4`. -/
def c7df : Df :=
  ⟨4, [⟨"p", DType.float, [.vFloat (qOfNat 1), .vNull, .vNull, .vNull]⟩,
       ⟨"q", DType.float, [.vFloat (qOfNat 1), .vFloat (qOfNat 2), .vNull, .vNull]⟩]⟩

/-- C7 witness: at threshold `3/4` the column exactly at the threshold
is dropped and the one below it is retained. -/
theorem C7_witness :
    c7df.nRows ≠ 0 ∧ c7df.names.Nodup ∧
    remove_mostly_nulls (mkRat 3 4) c7df =
      .ok ⟨4, [⟨"q", DType.float, [.vFloat (qOfNat 1), .vFloat (qOfNat 2), .vNull, .vNull]⟩]⟩ :=
  ⟨by decide, by decide, by
    rw [C7_null_threshold (mkRat 3 4) c7df (by decide) (by decide)]; decide⟩

/-! ## C5: row deduplication removes whole ambiguous groups -/

theorem maskRows_map_self {α : Type} (p : α → Bool) (xs : List α) :
    maskRows (xs.map p) xs = xs.filter p := by
  induction xs with
  | nil => rfl
  | cons x rest ih =>
    by_cases hp : p x
    · simpa [maskRows, List.zip_cons_cons, List.filter_cons, hp] using ih
    · simpa [maskRows, List.zip_cons_cons, List.filter_cons, hp] using ih

theorem count_true_map {α : Type} (p : α → Bool) (xs : List α) :
    (xs.map p).count true = (xs.filter p).length := by
  induction xs with
  | nil => rfl
  | cons x rest ih =>
    by_cases hp : p x <;> simp [List.count_cons, List.filter_cons, hp, ih]

theorem countP_add_countP_not {α : Type} (p : α → Bool) (xs : List α) :
    xs.countP p + xs.countP (fun x => !(p x)) = xs.length := by
  induction xs with
  | nil => rfl
  | cons x rest ih =>
    by_cases hp : p x <;> simp [List.countP_cons, hp, ← ih] <;> omega

theorem countP_or_disjoint {α : Type} (p q : α → Bool) (xs : List α)
    (hd : ∀ x ∈ xs, ¬(p x = true ∧ q x = true)) :
    xs.countP (fun x => p x || q x) = xs.countP p + xs.countP q := by
  induction xs with
  | nil => rfl
  | cons x rest ih =>
    have hrest := ih (fun y hy => hd y (List.mem_cons_of_mem x hy))
    have hx := hd x (List.mem_cons_self x rest)
    by_cases hp : p x
    · have hq : q x = false := by
        cases hqv : q x with
        | true => exact absurd ⟨hp, hqv⟩ hx
        | false => rfl
      simp [List.countP_cons, hp, hq, hrest]
      omega
    · by_cases hq : q x <;> simp [List.countP_cons, hp, hq, hrest] <;> omega

/-- The rows whose value lies in a duplicate-free value list, counted
by summing the per-value multiplicities. -/
theorem countP_contains_sum {ds : List Val} (hnd : ds.Nodup) (xs : List Val) :
    xs.countP (fun x => ds.contains x) = (ds.map (fun v => xs.count v)).sum := by
  induction ds with
  | nil => simp [List.countP_eq_length_filter]
  | cons d ds ih =>
    simp only [List.nodup_cons] at hnd
    have hsplit : (fun x => (d :: ds).contains x)
        = fun x => (x == d) || ds.contains x := by
      funext x
      cases hxd : x == d <;> simp [List.contains, List.elem, hxd]
    rw [hsplit, countP_or_disjoint _ _ _ ?_, ih hnd.2]
    · simp [List.count_eq_countP, List.map_cons, List.sum_cons]
    · intro x _ ⟨h1, h2⟩
      have hx : x = d := by simpa using h1
      exact hnd.1 (hx ▸ List.elem_iff.mp h2)

/-- C5: after `remove_row_duplicates`, every remaining (non-null)
identifier value appears exactly once, every whole group of an
identifier occurring at least twice is gone, and the number of
removed rows is the sum of the full sizes of those groups. -/
theorem C5_row_dedup (df : Df) (fc : Col) (hwf : df.WF)
    (hfc : getCol? df "frn_adjusted" = some fc) :
    ∃ dfr fc', remove_row_duplicates df = .ok dfr ∧
      getCol? dfr "frn_adjusted" = some fc' ∧
      (∀ v ∈ fc'.vals, v ≠ Val.vNull → fc'.vals.count v = 1) ∧
      (∀ v, v ≠ Val.vNull → 2 ≤ fc.vals.count v → v ∉ fc'.vals) ∧
      dfr.nRows + ((dupIds fc.vals).map (fun v => fc.vals.count v)).sum = df.nRows := by
  set kp : Val → Bool := fun v => !((dupIds fc.vals).contains v) with hkp
  have hmem_dup : ∀ v, v ≠ Val.vNull → v ∈ fc.vals → (v ∈ dupIds fc.vals ↔ 2 ≤ fc.vals.count v) := by
    intro v hv hm
    unfold dupIds
    simp [List.mem_filter, List.mem_dedup, hm, hv, bne_iff_ne]
  have hnodup : (dupIds fc.vals).Nodup := by
    unfold dupIds
    exact List.Nodup.filter _ (List.nodup_dedup _)
  refine ⟨_, ⟨fc.name, fc.dtype, maskRows (fc.vals.map kp) fc.vals⟩,
    by unfold remove_row_duplicates; rw [hfc], ?_, ?_, ?_, ?_⟩
  · show List.find? _ (df.cols.map _) = _
    rw [find?_name_map (fun c => { c with vals := maskRows (fc.vals.map kp) c.vals })
      (fun c => rfl)]
    show (getCol? df _).map _ = _
    rw [hfc]
    rfl
  · intro v hv hvn
    rw [maskRows_map_self] at hv ⊢
    have hf := List.mem_filter.mp hv
    have hnd : v ∉ dupIds fc.vals := by
      intro hc
      have hel : (dupIds fc.vals).contains v = true := List.elem_iff.mpr hc
      have hfalse : kp v = false := by
        have hb : kp v = !((dupIds fc.vals).contains v) := rfl
        rw [hb, hel]
        rfl
      rw [hf.2] at hfalse
      cases hfalse
    have hle : fc.vals.count v ≤ 1 := by
      by_contra hgt
      exact hnd ((hmem_dup v hvn hf.1).mpr (by omega))
    have hge : 1 ≤ fc.vals.count v := List.count_pos_iff.mpr hf.1
    rw [List.count_filter hf.2]
    omega
  · intro v hvn h2 hv
    rw [maskRows_map_self] at hv
    have hf := List.mem_filter.mp hv
    have hin : v ∈ dupIds fc.vals := (hmem_dup v hvn hf.1).mpr h2
    have hel : (dupIds fc.vals).contains v = true := List.elem_iff.mpr hin
    have hfalse : kp v = false := by
      have hb : kp v = !((dupIds fc.vals).contains v) := rfl
      rw [hb, hel]
      rfl
    rw [hf.2] at hfalse
    cases hfalse
  · show (fc.vals.map kp).count true + _ = _
    rw [count_true_map, ← List.countP_eq_length_filter,
      ← countP_contains_sum hnodup fc.vals]
    have hnot : (fun x => (dupIds fc.vals).contains x) = fun x => !(kp x) := by
      funext x; simp [hkp]
    rw [hnot, countP_add_countP_not kp fc.vals]
    exact hwf fc (getCol?_mem hfc)

/-- An identifier column with one duplicated id, one null and two
unique ids. -/
def c5fc : Col :=
  ⟨"frn_adjusted", DType.int, [Val.vInt 1, Val.vInt 1, Val.vInt 2, Val.vNull, Val.vInt 3]⟩

/-- A frame around `c5fc`. -/
def c5df : Df :=
  ⟨5, [c5fc,
       ⟨"v", DType.float, [.vFloat (qOfNat 1), .vFloat (qOfNat 2), .vFloat (qOfNat 3),
                           .vFloat (qOfNat 4), .vFloat (qOfNat 5)]⟩]⟩

/-- C5 witness: the theorem at a concrete frame. -/
theorem C5_witness :
    c5df.WF ∧
    getCol? c5df "frn_adjusted" = some c5fc ∧
    (∃ dfr fc', remove_row_duplicates c5df = .ok dfr ∧
      getCol? dfr "frn_adjusted" = some fc' ∧
      (∀ v ∈ fc'.vals, v ≠ Val.vNull → fc'.vals.count v = 1) ∧
      (∀ v, v ≠ Val.vNull → 2 ≤ c5fc.vals.count v → v ∉ fc'.vals) ∧
      dfr.nRows + ((dupIds c5fc.vals).map (fun v => c5fc.vals.count v)).sum = c5df.nRows) :=
  ⟨by decide, by decide, C5_row_dedup c5df c5fc (by decide) (by decide)⟩


/-! ## C9: shape invariants of every operation -/

theorem names_map_g (df : Df) (g : Col → Col) (hg : ∀ c, (g c).name = c.name) :
    (df.cols.map g).map (fun c => c.name) = df.names := by
  rw [List.map_map]
  exact List.map_congr_left (fun c _ => hg c)

theorem filter_names_nodup {df : Df} (p : Col → Bool) (hnd : df.names.Nodup) :
    ((df.cols.filter p).map (fun c => c.name)).Nodup :=
  List.Nodup.sublist (List.Sublist.map _ (List.filter_sublist _)) hnd

/-- Invariant preservation through a left fold of per-element steps. -/
theorem foldl_preserve {α : Type} (f : Df → α → Df) (L : List α)
    (hstep : ∀ d x, (f d x).nRows = d.nRows ∧ (f d x).cols.length ≤ d.cols.length ∧
      (d.names.Nodup → (f d x).names.Nodup)) :
    ∀ df : Df, (L.foldl f df).nRows = df.nRows ∧
      (L.foldl f df).cols.length ≤ df.cols.length ∧
      (df.names.Nodup → (L.foldl f df).names.Nodup) := by
  induction L with
  | nil => exact fun df => ⟨rfl, le_refl _, id⟩
  | cons x rest ih =>
    intro df
    obtain ⟨h1, h2, h3⟩ := ih (f df x)
    obtain ⟨g1, g2, g3⟩ := hstep df x
    refine ⟨?_, ?_, ?_⟩
    · show (rest.foldl f (f df x)).nRows = df.nRows
      rw [h1, g1]
    · show (rest.foldl f (f df x)).cols.length ≤ df.cols.length
      exact le_trans h2 g2
    · intro hn
      show (rest.foldl f (f df x)).names.Nodup
      exact h3 (g3 hn)

theorem dropColIfPresent_step (d : Df) (n : String) :
    (dropColIfPresent d n).nRows = d.nRows ∧
    (dropColIfPresent d n).cols.length ≤ d.cols.length ∧
    (d.names.Nodup → (dropColIfPresent d n).names.Nodup) := by
  unfold dropColIfPresent
  split
  · exact ⟨rfl, List.length_filter_le _ _, fun h => filter_names_nodup _ h⟩
  · exact ⟨rfl, le_refl _, id⟩

theorem convertYnCol_step (d : Df) (n : String) :
    (convertYnCol d n).nRows = d.nRows ∧
    (convertYnCol d n).cols.length = d.cols.length ∧
    (convertYnCol d n).names = d.names := by
  unfold convertYnCol
  cases getCol? d n with
  | none => exact ⟨rfl, rfl, rfl⟩
  | some c =>
    refine ⟨rfl, by simp [setColVals], ?_⟩
    show ((d.cols.map _).map _) = d.names
    exact names_map_g d _ (fun x => by by_cases h : x.name = n <;> simp [h])

theorem corrStep_step (t : ℚ) (sub : List Col) (d : Df) (ij : ℕ × ℕ) :
    (corrStep t sub d ij).nRows = d.nRows ∧
    (corrStep t sub d ij).cols.length ≤ d.cols.length ∧
    (d.names.Nodup → (corrStep t sub d ij).names.Nodup) := by
  unfold corrStep
  split
  · split
    · exact ⟨rfl, List.length_filter_le _ _, fun h => filter_names_nodup _ h⟩
    · exact ⟨rfl, le_refl _, id⟩
  · exact ⟨rfl, le_refl _, id⟩

theorem sortColsDesc_facts (df : Df) :
    (sortColsDesc df).names.Perm df.names ∧
    (sortColsDesc df).cols.length = df.cols.length ∧
    (sortColsDesc df).nRows = df.nRows :=
  ⟨List.Perm.map _ (List.perm_insertionSort _ _), List.length_insertionSort _ _, rfl⟩

theorem dedupByName_facts : ∀ (L : List Col) (seen : List String),
    ((dedupByName L seen).map (fun c => c.name)).Nodup ∧
    (∀ n ∈ (dedupByName L seen).map (fun c => c.name), n ∉ seen) ∧
    (dedupByName L seen).length ≤ L.length := by
  intro L
  induction L with
  | nil => exact fun seen => ⟨List.nodup_nil, fun n hn => absurd hn (by simp [dedupByName]), by simp [dedupByName]⟩
  | cons c rest ih =>
    intro seen
    by_cases hc : seen.contains c.name
    · obtain ⟨h1, h2, h3⟩ := ih seen
      refine ⟨?_, ?_, ?_⟩ <;> simp only [dedupByName, hc, if_pos]
      · exact h1
      · exact h2
      · exact le_trans h3 (Nat.le_succ _)
    · obtain ⟨h1, h2, h3⟩ := ih (c.name :: seen)
      have hq : (seen.contains c.name) = false := by
        cases hval : seen.contains c.name with
        | true => exact absurd hval hc
        | false => rfl
      refine ⟨?_, ?_, ?_⟩ <;> simp only [dedupByName, hq, Bool.false_eq_true, if_neg, not_false_iff]
      · rw [List.map_cons]
        refine List.nodup_cons.mpr ⟨?_, h1⟩
        intro hmem
        exact (h2 c.name hmem) (List.mem_cons_self c.name seen)
      · rw [List.map_cons]
        intro n hn
        rcases List.mem_cons.mp hn with he | hr
        · subst he
          intro hns
          have hct : seen.contains c.name = true := List.elem_iff.mpr hns
          rw [hq] at hct
          cases hct
        · exact fun hns => (h2 n hr) (List.mem_cons_of_mem _ hns)
      · simpa using Nat.succ_le_succ h3

theorem hasCol_eq_isSome (df : Df) (n : String) :
    hasCol df n = (getCol? df n).isSome := by
  unfold hasCol getCol?
  induction df.cols with
  | nil => rfl
  | cons c rest ih =>
    by_cases h : (c.name == n) = true <;> simp [List.any_cons, List.find?_cons, h, ih]

theorem not_mem_names_of_hasCol_false {df : Df} {n : String} (h : hasCol df n = false) :
    n ∉ df.names := by
  intro hmem
  rw [hasCol_names] at h
  have : df.names.any (fun x => x == n) = true := List.any_eq_true.mpr ⟨n, hmem, by simp⟩
  rw [h] at this
  cases this

theorem names_filterMap_getCol? (df : Df) (ns : List String) :
    ((ns.filterMap (fun n => getCol? df n)).map (fun c => c.name))
      = ns.filter (fun n => hasCol df n) := by
  induction ns with
  | nil => rfl
  | cons n rest ih =>
    cases h : getCol? df n with
    | none =>
      have hh : hasCol df n = false := by rw [hasCol_eq_isSome, h]; rfl
      simp [List.filterMap_cons, h, List.filter_cons, hh, ih]
    | some c =>
      have hh : hasCol df n = true := by rw [hasCol_eq_isSome, h]; rfl
      have hcn : c.name = n := getCol?_name h
      simp [List.filterMap_cons, h, List.filter_cons, hh, ih, hcn]

theorem summaryList_length {n : ℕ} : ∀ {L : List Col} {s : List SRow},
    summaryList n L = .ok s → s.length = L.length := by
  intro L
  induction L with
  | nil => intro s h; cases h; rfl
  | cons c rest ih =>
    intro s h
    unfold summaryList at h
    cases hr : summaryRow n c with
    | error e => rw [hr] at h; cases h
    | ok r =>
      rw [hr] at h
      cases hs : summaryList n rest with
      | error e => rw [hs] at h; cases h
      | ok srest =>
        rw [hs] at h
        have hok : Except.ok (r :: srest) = Except.ok s := h
        cases hok
        rw [List.length_cons, ih hs]
        rfl

theorem dummyLoop_preserves (maxcat : ℕ) : ∀ (cols : List String) (df dfr : Df)
    (sel : List String), dummyLoop maxcat cols df = .ok (dfr, sel) →
    dfr.nRows = df.nRows ∧ dfr.names = df.names := by
  intro cols
  induction cols with
  | nil =>
    intro df dfr sel h
    cases h
    exact ⟨rfl, rfl⟩
  | cons c rest ih =>
    intro df dfr sel h
    unfold dummyLoop at h
    by_cases hc : hasCol df c = true
    · rw [if_pos hc] at h
      have h2 : (match dummyLoop maxcat rest (normalizeCol df c) with
        | Except.ok (d0, l0) => Except.ok (d0,
            if dummySelTest maxcat (normalizeCol df c) c = true then c :: l0 else l0)
        | Except.error e => Except.error e) = Except.ok (dfr, sel) := h
      cases hr : dummyLoop maxcat rest (normalizeCol df c) with
      | error e => rw [hr] at h2; cases h2
      | ok p =>
        rw [hr] at h2
        have hd : dfr = p.1 := by cases h2; rfl
        obtain ⟨g1, g2⟩ := ih (normalizeCol df c) p.1 p.2 (by rw [hr])
        rw [hd, g1, g2, normalizeCol_names]
        exact ⟨rfl, rfl⟩
    · rw [if_neg hc] at h
      cases h

theorem remove_mostly_nulls_inv {t : ℚ} {df dfr : Df} (hnd : df.names.Nodup)
    (h : remove_mostly_nulls t df = .ok dfr) :
    dfr.nRows = df.nRows ∧ dfr.cols.length ≤ df.cols.length ∧ dfr.names.Nodup := by
  unfold remove_mostly_nulls at h
  cases hs : summary df with
  | error e => rw [hs] at h; cases h
  | ok s1 =>
    rw [hs] at h
    have hd : dfr = selectColsByNames df
        ((s1.filter (fun r => decide (r.nullPct < t))).map (fun r => r.col)) := by
      cases h
      rfl
    set ns := (s1.filter (fun r => decide (r.nullPct < t))).map (fun r => r.col) with hns
    have hrows : dfr.nRows = df.nRows := by rw [hd]; rfl
    have hcols : dfr.cols = ns.filterMap (fun n => getCol? df n) := by rw [hd]; rfl
    have hlen : dfr.cols.length ≤ df.cols.length := by
      rw [hcols]
      calc (ns.filterMap (fun n => getCol? df n)).length
          ≤ ns.length := List.length_filterMap_le _ _
        _ = (s1.filter (fun r => decide (r.nullPct < t))).length := by rw [hns, List.length_map]
        _ ≤ s1.length := List.length_filter_le _ _
        _ = df.cols.length := summaryList_length hs
    have hnsnd : ns.Nodup := by
      by_cases h0 : df.nRows = 0
      · cases hcolsdf : df.cols with
        | nil =>
          have : summary df = .ok [] := by unfold summary; rw [hcolsdf, h0]; rfl
          rw [this] at hs
          have : s1 = [] := by cases hs; rfl
          simp [hns, this]
        | cons c cs =>
          exfalso
          have herr : summary df = .error "ZeroDivisionError" := by
            unfold summary
            rw [hcolsdf, h0]
            simp [summaryList, summaryRow, bind, Except.bind]
          rw [herr] at hs
          cases hs
      · have hsm := summaryList_ok h0 df.cols
        have hs1 : s1 = df.cols.map (srowOk df.nRows) := by
          unfold summary at hs
          rw [hsm] at hs
          cases hs
          rfl
        rw [hns, hs1, List.filter_map, List.map_map]
        have : ((fun r : SRow => r.col) ∘ srowOk df.nRows) = fun c : Col => c.name :=
          funext fun c => by simp [Function.comp, srowOk_col]
        rw [this]
        exact List.Nodup.sublist (List.Sublist.map _ (List.filter_sublist _)) hnd
    have hnames : dfr.names.Nodup := by
      have : dfr.names = ns.filter (fun n => hasCol df n) := by
        show dfr.cols.map _ = _
        rw [hcols]
        exact names_filterMap_getCol? df ns
      rw [this]
      exact List.Nodup.sublist (List.filter_sublist _) hnsnd
    exact ⟨hrows, hlen, hnames⟩


theorem colToFloat?_name (c : Col) : ((colToFloat? c).getD c).name = c.name := by
  unfold colToFloat?
  cases c.vals.mapM valToFloat? with
  | none => rfl
  | some vs => rfl

theorem ynRawStep_step (d : Df) (n : String) :
    ((if hasCol d n then convertYnCol d n else d) : Df).nRows = d.nRows ∧
    ((if hasCol d n then convertYnCol d n else d) : Df).cols.length ≤ d.cols.length ∧
    (d.names.Nodup → ((if hasCol d n then convertYnCol d n else d) : Df).names.Nodup) := by
  by_cases hcx : hasCol d n = true
  · rw [if_pos hcx]
    obtain ⟨s1, s2, s3⟩ := convertYnCol_step d n
    exact ⟨s1, le_of_eq s2, fun hn => s3 ▸ hn⟩
  · rw [if_neg hcx]
    exact ⟨rfl, le_refl _, id⟩

theorem okInj {ε α : Type} {x y : α} (h : (Except.ok x : Except ε α) = .ok y) : x = y := by
  cases h
  rfl

theorem map_vals_names_nodup {df : Df} (f : Col → List Val) (hnd : df.names.Nodup) :
    ((df.cols.map (fun c => { c with vals := f c })).map (fun c => c.name)).Nodup := by
  rw [names_map_g df (fun c => { c with vals := f c }) (fun c => rfl)]
  exact hnd

theorem rename_names (a b : String) (df : Df) :
    (rename_col a b df).names = df.names.map (fun x => if x == a then b else x) := by
  unfold rename_col Df.names
  rw [List.map_map, List.map_map]
  exact List.map_congr_left (fun c _ => by by_cases hx : c.name = a <;> simp [hx])

/-- C9 (amended): after any single pipeline operation that returns
normally, the row count does not grow; except for dummy-encoding the
column count does not grow; and the column labels stay unique under
the per-operation provisos of `opSafe` (without them, `rename_col` can
duplicate a label — the C9 counterexample). -/
theorem C9_invariants (maxcat : ℕ) (nullt corrt : ℚ) (op : POp) (df dfr : Df)
    (hwf : df.WF) (hnd : df.names.Nodup) (hsafe : opSafe maxcat op df = true)
    (happ : applyOp maxcat nullt corrt op df = .ok dfr) :
    dfr.nRows ≤ df.nRows ∧
    (isDummyOp op = false → dfr.cols.length ≤ df.cols.length) ∧
    dfr.names.Nodup := by
  cases op with
  | remove_row_duplicates =>
    have h : remove_row_duplicates df = .ok dfr := happ
    unfold remove_row_duplicates at h
    cases hfc : getCol? df "frn_adjusted" with
    | none => rw [hfc] at h; cases h
    | some fc =>
      rw [hfc] at h
      cases h
      refine ⟨?_, fun _ => le_of_eq (by simp), ?_⟩
      · calc ((fc.vals.map (fun v => !((dupIds fc.vals).contains v))).count true)
            ≤ (fc.vals.map (fun v => !((dupIds fc.vals).contains v))).length :=
              List.count_le_length _ _
          _ = fc.vals.length := List.length_map _ _
          _ = df.nRows := hwf fc (getCol?_mem hfc)
      · exact map_vals_names_nodup _ hnd
  | remove_column_nulls =>
    have h : Except.ok (remove_column_nulls df) = .ok dfr := happ
    cases h
    exact ⟨le_refl _, fun _ => List.length_filter_le _ _, filter_names_nodup _ hnd⟩
  | remove_column_duplicates =>
    have h : Except.ok (remove_column_duplicates df) = .ok dfr := happ
    cases h
    have hre : remove_column_duplicates df =
        { df with cols :=
            dedupByName (df.cols.filter (fun c => !((duplicate_columns df).contains c.name))) [] } :=
      rfl
    rw [hre]
    obtain ⟨h1, h2, h3⟩ := dedupByName_facts
      (df.cols.filter (fun c => !((duplicate_columns df).contains c.name))) []
    exact ⟨le_refl _, fun _ => le_trans h3 (List.length_filter_le _ _), h1⟩
  | remove_no_var =>
    have h : Except.ok (remove_no_var df) = .ok dfr := happ
    cases h
    exact ⟨le_refl _, fun _ => List.length_filter_le _ _, filter_names_nodup _ hnd⟩
  | remove_drops_raw =>
    have h : Except.ok (drop_cols.foldl dropColIfPresent df) = .ok dfr := happ
    rw [← okInj h]
    obtain ⟨h1, h2, h3⟩ := foldl_preserve dropColIfPresent drop_cols
      (fun d x => dropColIfPresent_step d x) df
    exact ⟨le_of_eq h1, fun _ => h2, h3 hnd⟩
  | rename_col a b =>
    have h : Except.ok (rename_col a b df) = .ok dfr := happ
    cases h
    refine ⟨le_refl _, fun _ => le_of_eq (by simp [rename_col]), ?_⟩
    rw [rename_names]
    have hsafe2 : (a == b || !(hasCol df a) || !(hasCol df b)) = true := hsafe
    rcases Bool.or_eq_true_iff.mp hsafe2 with hab | hbf
    · rcases Bool.or_eq_true_iff.mp hab with he | haf
      · have : a = b := by simpa using he
        subst this
        have h1 : df.names.map (fun x => if x == a then a else x) = df.names.map id :=
          List.map_congr_left (fun x _ => by by_cases hx : x = a <;> simp [hx])
        rw [h1, List.map_id]
        exact hnd
      · have hfa : hasCol df a = false := by
          cases hv : hasCol df a
          · rfl
          · rw [hv] at haf; cases haf
        have hnm := not_mem_names_of_hasCol_false hfa
        have h1 : df.names.map (fun x => if x == a then b else x) = df.names.map id :=
          List.map_congr_left (fun x hx => by
            have hne : x ≠ a := fun he => hnm (he ▸ hx)
            simp [hne])
        rw [h1, List.map_id]
        exact hnd
    · have hfb : hasCol df b = false := by
        cases hv : hasCol df b
        · rfl
        · rw [hv] at hbf; cases hbf
      have hnm := not_mem_names_of_hasCol_false hfb
      refine List.Nodup.map_on ?_ hnd
      intro x hx y hy hxy
      by_cases hxa : x = a <;> by_cases hya : y = a
      · rw [hxa, hya]
      · exfalso
        rw [if_pos (by simp [hxa]), if_neg (by simp [hya])] at hxy
        exact hnm (hxy ▸ hy)
      · exfalso
        rw [if_neg (by simp [hxa]), if_pos (by simp [hya])] at hxy
        exact hnm (hxy ▸ hx)
      · rw [if_neg (by simp [hxa]), if_neg (by simp [hya])] at hxy
        exact hxy
  | convert_floats cats =>
    have h : Except.ok (convert_floats cats df) = .ok dfr := happ
    cases h
    refine ⟨le_refl _, fun _ => le_of_eq (by simp [convert_floats]), ?_⟩
    show ((df.cols.map _).map _).Nodup
    rw [names_map_g df _ (fun c => by
      by_cases hc : c.name ∈ cats
      · simp [convert_floats, hc]
      · simp [convert_floats, hc, colToFloat?_name])]
    exact hnd
  | convert_floats_raw =>
    have h : Except.ok (convert_floats cat_cols df) = .ok dfr := happ
    cases h
    refine ⟨le_refl _, fun _ => le_of_eq (by simp [convert_floats]), ?_⟩
    show ((df.cols.map _).map _).Nodup
    rw [names_map_g df _ (fun c => by
      by_cases hc : c.name ∈ cat_cols
      · simp [convert_floats, hc]
      · simp [convert_floats, hc, colToFloat?_name])]
    exact hnd
  | convert_yn n =>
    have h : convert_yn n df = .ok dfr := happ
    unfold convert_yn at h
    by_cases hc : hasCol df n = true
    · rw [if_pos hc] at h
      have h2 : Except.ok (convertYnCol df n) = .ok dfr := h
      cases h2
      obtain ⟨s1, s2, s3⟩ := convertYnCol_step df n
      exact ⟨le_of_eq s1, fun _ => le_of_eq s2, s3 ▸ hnd⟩
    · rw [if_neg hc] at h
      have hcf : hasCol df n = false := by
        cases hv : hasCol df n
        · rfl
        · exact absurd hv hc
      have hsafe2 : (hasCol df n || !(df.nRows == 0)) = true := hsafe
      rw [hcf] at hsafe2
      have hnz : (df.nRows == 0) = false := by
        cases hv : (df.nRows == 0)
        · rfl
        · rw [hv] at hsafe2; cases hsafe2
      rw [if_neg (by rw [hnz]; exact Bool.false_ne_true)] at h
      cases h
  | convert_yn_raw =>
    have h : Except.ok (yn_cols.foldl (fun d x => if hasCol d x then convertYnCol d x else d) df)
        = .ok dfr := happ
    rw [← okInj h]
    obtain ⟨h1, h2, h3⟩ := foldl_preserve
      (fun d x => if hasCol d x then convertYnCol d x else d) yn_cols
      (fun d x => ynRawStep_step d x) df
    exact ⟨le_of_eq h1, fun _ => h2, h3 hnd⟩
  | convert_dummies cols =>
    have h : convert_dummies maxcat cols df = .ok dfr := happ
    unfold convert_dummies at h
    cases hloop : dummyLoop maxcat cols df with
    | error e => rw [hloop] at h; cases h
    | ok p =>
      rw [hloop] at h
      have h2 : Except.ok (getDummies p.1 p.2) = .ok dfr := h
      cases h2
      obtain ⟨g1, g2⟩ := dummyLoop_preserves maxcat cols df p.1 p.2 (by rw [hloop])
      refine ⟨le_of_eq g1, fun hdum => by simp [isDummyOp] at hdum, ?_⟩
      have hsafe2 : decide (dummyResultNames maxcat cols df).Nodup = true := hsafe
      have hrn : dummyResultNames maxcat cols df = (getDummies p.1 p.2).names := by
        unfold dummyResultNames
        rw [hloop]
      rw [hrn] at hsafe2
      exact of_decide_eq_true hsafe2
  | convert_dummies_raw =>
    have h : convert_dummies maxcat (catColsNoBool df) df = .ok dfr := happ
    unfold convert_dummies at h
    cases hloop : dummyLoop maxcat (catColsNoBool df) df with
    | error e => rw [hloop] at h; cases h
    | ok p =>
      rw [hloop] at h
      have h2 : Except.ok (getDummies p.1 p.2) = .ok dfr := h
      cases h2
      obtain ⟨g1, g2⟩ := dummyLoop_preserves maxcat (catColsNoBool df) df p.1 p.2 (by rw [hloop])
      refine ⟨le_of_eq g1, fun hdum => by simp [isDummyOp] at hdum, ?_⟩
      have hsafe2 : decide (dummyResultNames maxcat (catColsNoBool df) df).Nodup = true := hsafe
      have hrn : dummyResultNames maxcat (catColsNoBool df) df = (getDummies p.1 p.2).names := by
        unfold dummyResultNames
        rw [hloop]
      rw [hrn] at hsafe2
      exact of_decide_eq_true hsafe2
  | remove_mostly_nulls =>
    have h : remove_mostly_nulls nullt df = .ok dfr := happ
    obtain ⟨h1, h2, h3⟩ := remove_mostly_nulls_inv hnd h
    exact ⟨le_of_eq h1, fun _ => h2, h3⟩
  | remove_correlated_raw =>
    have h : Except.ok (remove_correlated_raw corrt df) = .ok dfr := happ
    cases h
    have hrw : remove_correlated_raw corrt df =
        (lowerPairs (((sortColsDesc df).cols.filter (fun c => c.dtype == DType.float)).length)).foldl
          (corrStep corrt ((sortColsDesc df).cols.filter (fun c => c.dtype == DType.float)))
          (sortColsDesc df) := rfl
    rw [hrw]
    obtain ⟨p1, p2, p3⟩ := sortColsDesc_facts df
    obtain ⟨f1, f2, f3⟩ := foldl_preserve
      (corrStep corrt ((sortColsDesc df).cols.filter (fun c => c.dtype == DType.float)))
      (lowerPairs (((sortColsDesc df).cols.filter (fun c => c.dtype == DType.float)).length))
      (fun d x => corrStep_step corrt _ d x) (sortColsDesc df)
    refine ⟨?_, fun _ => ?_, ?_⟩
    · rw [f1, p3]
    · exact le_trans f2 (le_of_eq p2)
    · exact f3 ((List.Perm.nodup_iff p1).mpr hnd)

/-- Two object columns with distinct labels. -/
def c9df : Df := ⟨1, [⟨"a", DType.obj, [Val.vStr "x"]⟩, ⟨"b", DType.obj, [Val.vStr "y"]⟩]⟩

/-- C9 counterexample: renaming `a` onto the existing label `b`
produces duplicate column labels, so the invariant as claimed (for
arbitrary `rename_col` arguments) fails. -/
theorem C9_counterexample :
    applyOp 12 (mkRat 74 100) (mkRat 9 10) (POp.rename_col "a" "b") c9df
      = .ok ⟨1, [⟨"b", DType.obj, [Val.vStr "x"]⟩, ⟨"b", DType.obj, [Val.vStr "y"]⟩]⟩ ∧
    ¬ (⟨1, [⟨"b", DType.obj, [Val.vStr "x"]⟩, ⟨"b", DType.obj, [Val.vStr "y"]⟩]⟩ : Df).names.Nodup := by
  refine ⟨by decide, by decide⟩

/-- C9 witness: the amended theorem at `remove_no_var` on `c9df`
(whose single row makes both columns constant, so both are dropped). -/
theorem C9_witness :
    c9df.WF ∧ c9df.names.Nodup ∧ opSafe 12 POp.remove_no_var c9df = true ∧
    applyOp 12 (mkRat 74 100) (mkRat 9 10) POp.remove_no_var c9df = .ok ⟨1, []⟩ ∧
    ((⟨1, []⟩ : Df).nRows ≤ c9df.nRows ∧
      (isDummyOp POp.remove_no_var = false → (⟨1, []⟩ : Df).cols.length ≤ c9df.cols.length) ∧
      (⟨1, []⟩ : Df).names.Nodup) :=
  ⟨by decide, by decide, by decide, by decide,
    C9_invariants 12 (mkRat 74 100) (mkRat 9 10) POp.remove_no_var c9df ⟨1, []⟩
      (by decide) (by decide) (by decide) (by decide)⟩

end MC
